import Mathlib

/-!
# Verification of `move_sidebar.py`

A shallow embedding of the DOM transformation implemented by
`move_sidebar_after_content` and the preview counting in
`process_single_file` (src/move_sidebar.py), together with proofs about
the claims of the specification.

The document is modelled as a tree of element and text nodes.  Every
element carries a `uid` standing for Python object identity: the script
holds references to tags (`content_section`, `sidebar_section`, the
members of `find_all` result lists) across destructive updates, and the
embedding locates those references again by uid.  Theorems that depend on
reference identity assume the uids of the input document are distinct,
which is how an actual parse produces them.

BeautifulSoup behaviour embedded here (bs4 4.12 with the lxml builder):
  * `find` / `find_all` traverse descendants in document order (preorder);
  * an attribute filter that is a callable is applied, for a multi-valued
    attribute stored as a list, to each token and then to the
    space-joined string, and to the plain string otherwise
    (`SoupStrainer._matches` expands list values before calling the
    filter); an absent attribute gives the callable `None`;
  * a `Tag` defines `len()` as its number of children and has no
    `__bool__`, so `if tag:` is False both for `None` and for an element
    with no children;
  * `decompose()` detaches a subtree and clears the `__dict__` of every
    element in it; touching such a tag again (`tag.get`, `tag.extract`,
    `tag.insert_after`) raises `AttributeError`;
  * `insert_after` on a tag whose parent chain survives inserts into that
    parent even when the parent meanwhile sits in a detached subtree, in
    which case the serialized document does not show the insertion.

Parsing and serialization are not modelled: the transformation is studied
from tree to tree, and statements about the output text are read as
statements about the output tree (serialization of equal trees is equal
text).
-/

namespace MoveSidebar

/-- An attribute value as BeautifulSoup stores it: a plain string or, for
multi-valued attributes such as `class` under an HTML builder, a list of
tokens. -/
inductive AttrVal where
  | vstr (s : String)
  | vlist (l : List String)
deriving DecidableEq

/-- A node of the document tree: an element (uid for object identity, tag
name, attributes in order, children in order) or a text node. -/
inductive Node where
  | elem (uid : Nat) (tag : String) (attrs : List (String × AttrVal)) (children : List Node)
  | text (s : String)

mutual

/-- Boolean equality of nodes (the automatic derivation does not handle
the nested occurrence of `List Node`). -/
def Node.beq : Node → Node → Bool
  | .elem u t a c, .elem v t2 a2 c2 =>
    u == v && t == t2 && a == a2 && Node.beqList c c2
  | .text s, .text s2 => s == s2
  | _, _ => false

def Node.beqList : List Node → List Node → Bool
  | [], [] => true
  | n :: ns, m :: ms => Node.beq n m && Node.beqList ns ms
  | _, _ => false

end

mutual

theorem Node.beq_iff : ∀ a b : Node, Node.beq a b = true ↔ a = b
  | .elem u t a c, .elem v t2 a2 c2 => by
    simp only [Node.beq, Bool.and_eq_true, beq_iff_eq, Node.elem.injEq]
    rw [Node.beqList_iff c c2]
    tauto
  | .text s, .text s2 => by simp [Node.beq]
  | .elem _ _ _ _, .text _ => by simp [Node.beq]
  | .text _, .elem _ _ _ _ => by simp [Node.beq]

theorem Node.beqList_iff : ∀ a b : List Node, Node.beqList a b = true ↔ a = b
  | [], [] => by simp [Node.beqList]
  | n :: ns, m :: ms => by
    simp only [Node.beqList, Bool.and_eq_true, List.cons.injEq]
    rw [Node.beq_iff n m, Node.beqList_iff ns ms]
  | [], _ :: _ => by simp [Node.beqList]
  | _ :: _, [] => by simp [Node.beqList]

end

instance : DecidableEq Node := fun a b =>
  decidable_of_iff (Node.beq a b = true) (Node.beq_iff a b)

/-- A document: the list of top-level nodes (the soup's contents). -/
abbrev Doc := List Node

/-- The identity of a node; text nodes are never tracked, they get 0. -/
def Node.nuid : Node → Nat
  | .elem u _ _ _ => u
  | .text _ => 0

/-- The children of a node. -/
def Node.childrenOf : Node → List Node
  | .elem _ _ _ c => c
  | .text _ => []

/-- Attribute lookup in a tag's attribute dictionary (first binding wins;
a parser never produces duplicate keys). -/
def getAttr (attrs : List (String × AttrVal)) (k : String) : Option AttrVal :=
  (attrs.find? (fun p => p.1 == k)).map (fun p => p.2)

/-- The identity-independent data of an element: what attribute filters
and tag-name filters can observe.  Mutation of a document never changes
the `Info` of a surviving element, only its children. -/
structure Info where
  uid : Nat
  tag : String
  attrs : List (String × AttrVal)
deriving DecidableEq

def Info.attr (i : Info) (k : String) : Option AttrVal :=
  getAttr i.attrs k

/-- The `Info` of a node (text nodes give a dummy that no filter in this
script accepts, and they are filtered out before `Info` is taken). -/
def Node.info : Node → Info
  | .elem u t a _ => ⟨u, t, a⟩
  | .text _ => ⟨0, "", []⟩

/-! ## BeautifulSoup attribute matching -/

/-- `SoupStrainer._matches` for a callable filter: a list-valued
attribute is expanded, the callable seeing each token and then the
space-joined whole; a plain string is passed directly; for an absent
attribute the callable receives `None`, which every lambda in this script
rejects. -/
def bs4CallMatch (p : String → Bool) : Option AttrVal → Bool
  | none => false
  | some (.vstr s) => p s
  | some (.vlist l) => l.any p || p (String.intercalate " " l)

/-- `SoupStrainer._matches` for a string filter: equality against the
plain value, or against any token or the space-joined whole of a
list value. -/
def bs4StrMatch (v : String) : Option AttrVal → Bool
  | none => false
  | some (.vstr s) => s == v
  | some (.vlist l) => l.any (fun t => t == v) || String.intercalate " " l == v

/-- `SoupStrainer._matches` for the filter `True`: any present value. -/
def bs4TrueMatch : Option AttrVal → Bool
  | none => false
  | some _ => true

/-! ## The filter lambdas of the script -/

/-- Python `str.startswith` (written as a prefix test on the character
list, which the kernel can evaluate, unlike `String.startsWith`). -/
def strStartsWith (s p : String) : Bool :=
  p.data.isPrefixOf s.data

/-- `lambda x: x and x.startswith('jetpack-')` applied to a string. -/
def jetpackIdLambda (x : String) : Bool :=
  !x.isEmpty && strStartsWith x "jetpack-"

/-- `lambda x: x and x.startswith('sharing-js')` applied to a string. -/
def sharingIdLambda (x : String) : Bool :=
  !x.isEmpty && strStartsWith x "sharing-js"

/-- `lambda x: x and x.startswith('comment-reply')` applied to a string. -/
def commentReplyIdLambda (x : String) : Bool :=
  !x.isEmpty && strStartsWith x "comment-reply"

/-- `lambda x: x and any(cls.startswith('sharedaddy') for cls in x if
isinstance(x, list))` applied to a string `x` (which is what bs4 hands
it): the generator's guard tests the whole value `x`, not `cls`, so over
a string it yields nothing and `any` of the empty generator is `False`. -/
def sharedaddyListLambda (x : String) : Bool :=
  !x.isEmpty && false

/-- `lambda x: isinstance(x, str) and x.startswith('sharedaddy')`
applied to a string. -/
def sharedaddyStrLambda (x : String) : Bool :=
  strStartsWith x "sharedaddy"

/-! ## The element filters used by the script -/

def isJetpackScript (i : Info) : Bool :=
  i.tag == "script" && bs4CallMatch jetpackIdLambda (i.attr "id")

def isSharingScript (i : Info) : Bool :=
  i.tag == "script" && bs4CallMatch sharingIdLambda (i.attr "id")

def isCommentReplyScript (i : Info) : Bool :=
  i.tag == "script" && bs4CallMatch commentReplyIdLambda (i.attr "id")

def isSpeculationScript (i : Info) : Bool :=
  i.tag == "script" && bs4StrMatch "speculationrules" (i.attr "type")

/-- An element matched by any of the four script-removal searches. -/
def isUnwantedScript (i : Info) : Bool :=
  isJetpackScript i || isSharingScript i || isCommentReplyScript i || isSpeculationScript i

def isLikesIframe (i : Info) : Bool :=
  i.tag == "iframe" && bs4StrMatch "likes-master" (i.attr "id")

def isSharedaddyDivList (i : Info) : Bool :=
  i.tag == "div" && bs4CallMatch sharedaddyListLambda (i.attr "class")

def isSharedaddyDivStr (i : Info) : Bool :=
  i.tag == "div" && bs4CallMatch sharedaddyStrLambda (i.attr "class")

def isAsideWithId (i : Info) : Bool :=
  i.tag == "aside" && bs4TrueMatch (i.attr "id")

/-- `soup.find(id=v)`: any element whose id attribute matches `v`. -/
def hasId (v : String) (i : Info) : Bool :=
  bs4StrMatch v (i.attr "id")

/-! ## Traversal -/

mutual

/-- The elements of a subtree in document order (preorder), each carrying
its full remaining subtree. -/
def elems1 : Node → List Node
  | .elem u t a c => .elem u t a c :: elemsF c
  | .text _ => []

/-- The elements of a forest in document order. -/
def elemsF : Doc → List Node
  | [] => []
  | n :: ns => elems1 n ++ elemsF ns

end

mutual

/-- The `Info`s of the elements of a subtree in document order. -/
def infos1 : Node → List Info
  | .elem u t a c => ⟨u, t, a⟩ :: infosF c
  | .text _ => []

/-- The `Info`s of the elements of a forest in document order. -/
def infosF : Doc → List Info
  | [] => []
  | n :: ns => infos1 n ++ infosF ns

end

/-- `find_all` with an element filter over a whole document. -/
def findAll (p : Info → Bool) (f : Doc) : List Node :=
  (elemsF f).filter (fun n => p n.info)

/-- `find` with an element filter: first match in document order. -/
def findFirst (p : Info → Bool) (f : Doc) : Option Node :=
  (findAll p f).head?

/-- `tag.find_all(...)`: matches among the descendants of a tag. -/
def findAllIn (n : Node) (p : Info → Bool) : List Node :=
  findAll p n.childrenOf

/-- Python truthiness of the result of `find`: `None` is falsy, and a
`Tag` defines `len()` as its number of children with no `__bool__`, so an
element with no children is falsy as well. -/
def truthy : Option Node → Bool
  | none => false
  | some (.elem _ _ _ c) => !c.isEmpty
  | some (.text s) => !s.isEmpty

/-- Whether an element with identity `u` is (still) in the forest. -/
def containsUid (u : Nat) (f : Doc) : Bool :=
  (infosF f).any (fun i => i.uid == u)

/-- The current subtree of the element with identity `u`. -/
def subtreeByUid (u : Nat) (f : Doc) : Option Node :=
  (elemsF f).find? (fun n => n.nuid == u)

/-! ## Mutation primitives -/

mutual

/-- `decompose` / `extract` of the element with identity `u`: the whole
subtree rooted there disappears. -/
def removeUid1 (u : Nat) : Node → List Node
  | .elem v t a c => if v == u then [] else [.elem v t a (removeUidF u c)]
  | .text s => [.text s]

def removeUidF (u : Nat) : Doc → Doc
  | [] => []
  | n :: ns => removeUid1 u n ++ removeUidF u ns

end

/-- Whether a node is the element with identity `u`. -/
def isElemWithUid (u : Nat) : Node → Bool
  | .elem v _ _ _ => v == u
  | .text _ => false

mutual

/-- `tag.insert_after(x)` applied below one node. -/
def insertAfter1 (u : Nat) (x : Node) : Node → Node
  | .elem v t a c => .elem v t a (insertAfterF u x c)
  | .text s => .text s

/-- `tag.insert_after(x)`: insert `x` as the sibling directly after the
element with identity `u`, in whatever children list holds it. -/
def insertAfterF (u : Nat) (x : Node) : Doc → Doc
  | [] => []
  | n :: ns =>
    if isElemWithUid u n then n :: x :: insertAfterF u x ns
    else insertAfter1 u x n :: insertAfterF u x ns

end

instance {ε α : Type} [DecidableEq ε] [DecidableEq α] : DecidableEq (Except ε α) := fun x y =>
  match x, y with
  | .ok a, .ok b => if h : a = b then .isTrue (by rw [h]) else .isFalse (by simp [h])
  | .error e, .error e2 => if h : e = e2 then .isTrue (by rw [h]) else .isFalse (by simp [h])
  | .ok _, .error _ => .isFalse (by simp)
  | .error _, .ok _ => .isFalse (by simp)

/-! ## Errors -/

/-- The exceptions the transformation can raise.  `valueErr s` stands for
Python `ValueError("Section with id 's' not found in HTML")`;
`attributeErr` for the `AttributeError` raised by touching a decomposed
tag; `typeErr` for the `TypeError` raised by testing an unhashable list
for set membership. -/
inductive PyErr where
  | valueErr (sectionName : String)
  | attributeErr
  | typeErr
deriving DecidableEq

/-- Iterate `tag.decompose()` over the tags of a `find_all` result list,
given by identity.  A tag destroyed by an earlier decompose in the same
loop (a nested or repeated match) has its `__dict__` cleared, and the
next `decompose` on it raises `AttributeError`. -/
def decomposeAll : List Nat → Doc → Except PyErr Doc
  | [], f => .ok f
  | u :: us, f =>
    if containsUid u f then decomposeAll us (removeUidF u f)
    else .error .attributeErr

/-- The fixed denylist of aside ids. -/
def unwantedIds : List String := ["search-2", "meta-2"]

/-- `aside.get('id')` as a set-membership key: a missing id is the
hashable `None`, a string is itself, and a list raises `TypeError` when
tested for membership in a set. -/
def pyIdKey : Option AttrVal → Except PyErr (Option String)
  | some (.vlist _) => .error .typeErr
  | some (.vstr s) => .ok (some s)
  | none => .ok none

/-- Attribute access on a node (an element's attribute dictionary). -/
def Node.attr (n : Node) (k : String) : Option AttrVal :=
  n.info.attr k

/-- The aside loop of `move_sidebar_after_content` (lines 113-124): walk
the collected asides, removing denylisted ids and later duplicates and
recording first occurrences, with the counters the script keeps.  An
aside destroyed by an earlier iteration raises on `aside.get('id')`. -/
def asideLoop : List Node → List (Option String) → Nat → Nat → Doc →
    Except PyErr (Doc × Nat × Nat)
  | [], _, unw, dup, f => .ok (f, unw, dup)
  | a :: rest, seen, unw, dup, f =>
    if containsUid a.nuid f then
      match pyIdKey (a.attr "id") with
      | .error e => .error e
      | .ok idv =>
        if idv.any (fun s => unwantedIds.contains s) then
          asideLoop rest seen (unw + 1) dup (removeUidF a.nuid f)
        else if seen.contains idv then
          asideLoop rest seen unw (dup + 1) (removeUidF a.nuid f)
        else
          asideLoop rest (idv :: seen) unw dup f
    else .error .attributeErr

/-! ## The transformation -/

/-- The four script `find_all` results, concatenated in script order
(`unwanted_scripts` of lines 68-84). -/
def scriptMatches (f : Doc) : List Node :=
  findAll isJetpackScript f ++ findAll isSharingScript f ++
    findAll isCommentReplyScript f ++ findAll isSpeculationScript f

/-- The sharedaddy div matches (lines 97-100): the list-flavoured search
first, and, only when it found nothing, the string-flavoured search.
Because bs4 hands the first lambda plain strings, the first search can
never match and the fallback always runs. -/
def divMatches (f : Doc) : List Node :=
  let fromListCheck := findAll isSharedaddyDivList f
  if fromListCheck.isEmpty then findAll isSharedaddyDivStr f else fromListCheck

/-- The counters the script computes: removed scripts, removed iframes
(0 or 1), removed sharedaddy divs, removed denylisted asides, removed
duplicate-id asides. -/
structure Counts where
  scripts : Nat
  iframes : Nat
  divs : Nat
  unwanted : Nat
  dups : Nat
deriving DecidableEq

/-- Lines 67-88: collect the four script searches and decompose each
result. -/
def scriptStage (doc : Doc) : Except PyErr Doc :=
  decomposeAll ((scriptMatches doc).map Node.nuid) doc

/-- Lines 90-94: find the likes-master iframe and, when it is truthy,
decompose it; paired with the `iframe_removed` counter. -/
def iframeStage (f1 : Doc) : Doc × Nat :=
  match findFirst isLikesIframe f1 with
  | some n => if truthy (some n) then (removeUidF n.nuid f1, 1) else (f1, 0)
  | none => (f1, 0)

/-- Lines 96-104: collect the sharedaddy div searches and decompose each
result. -/
def divStage (f2 : Doc) : Except PyErr Doc :=
  decomposeAll ((divMatches f2).map Node.nuid) f2

/-- Lines 106-124: collect `sidebar_section.find_all('aside', id=True)`
from the sidebar reference (an already decomposed reference has empty
contents and yields nothing) and run the dedup/denylist loop. -/
def asideStage (su : Nat) (f3 : Doc) : Except PyErr (Doc × Nat × Nat) :=
  let asides :=
    match subtreeByUid su f3 with
    | some s => findAllIn s isAsideWithId
    | none => []
  asideLoop asides [] 0 0 f3

/-- Lines 126-130: `sidebar_section.extract()` then
`content_section.insert_after(sidebar_section)`.  A decomposed sidebar or
content reference raises `AttributeError`; a content reference alive only
inside the extracted sidebar subtree receives the insertion in that
detached subtree, leaving the serialized document without it. -/
def moveStage (cu su : Nat) (f4 : Doc) : Except PyErr Doc :=
  match subtreeByUid su f4 with
  | none => .error .attributeErr
  | some sidebarNow =>
    if containsUid cu (removeUidF su f4) then
      .ok (insertAfterF cu sidebarNow (removeUidF su f4))
    else if containsUid cu [sidebarNow] then .ok (removeUidF su f4)
    else .error .attributeErr

/-- `move_sidebar_after_content` (lines 39-132), instrumented with the
removal counters the function computes internally.  Stages in source
order: find and truthiness-check the content and sidebar sections;
collect and decompose the unwanted scripts; find and, when truthy,
decompose the likes-master iframe; collect and decompose the sharedaddy
divs; dedup/denylist the asides below the sidebar reference; extract the
sidebar and insert it after the content section. -/
def moveCore (doc : Doc) : Except PyErr (Doc × Counts) :=
  let content := findFirst (hasId "content") doc
  let sidebar := findFirst (hasId "sidebar") doc
  if !truthy content then .error (.valueErr "content")
  else if !truthy sidebar then .error (.valueErr "sidebar")
  else
    match content, sidebar with
    | some contentN, some sidebarN =>
      match scriptStage doc with
      | .error e => .error e
      | .ok f1 =>
        let fi := iframeStage f1
        match divStage fi.1 with
        | .error e => .error e
        | .ok f3 =>
          match asideStage sidebarN.nuid f3 with
          | .error e => .error e
          | .ok (f4, unw, dup) =>
            match moveStage contentN.nuid sidebarN.nuid f4 with
            | .error e => .error e
            | .ok out =>
              .ok (out,
                ⟨(scriptMatches doc).length, fi.2, (divMatches fi.1).length, unw, dup⟩)
    | _, _ => .error (.valueErr "content")

/-- `move_sidebar_after_content` as the caller sees it: the transformed
document (the counters are local to the function). -/
def move_sidebar_after_content (doc : Doc) : Except PyErr Doc :=
  (moveCore doc).map (fun r => r.1)

/-! ## The preview counting of `process_single_file` (lines 153-195) -/

/-- The counting loop over the sidebar's asides (lines 188-195): the same
walk as `asideLoop` but with no removals. -/
def asideCountLoop : List Node → List (Option String) → Nat → Nat →
    Except PyErr (Nat × Nat)
  | [], _, unw, dup => .ok (unw, dup)
  | a :: rest, seen, unw, dup =>
    match pyIdKey (a.attr "id") with
    | .error e => .error e
    | .ok idv =>
      if idv.any (fun s => unwantedIds.contains s) then
        asideCountLoop rest seen (unw + 1) dup
      else if seen.contains idv then
        asideCountLoop rest seen unw (dup + 1)
      else
        asideCountLoop rest (idv :: seen) unw dup

/-- The read-only counts `process_single_file` computes on a fresh parse
of the same text before calling the transformation. -/
def previewCounts (doc : Doc) : Except PyErr Counts :=
  let sidebar := findFirst (hasId "sidebar") doc
  let scriptsCount := (scriptMatches doc).length
  let iframeCount := if truthy (findFirst isLikesIframe doc) then 1 else 0
  let divsCount := (divMatches doc).length
  let asideCounts :=
    if truthy sidebar then
      match sidebar with
      | some s => asideCountLoop (findAllIn s isAsideWithId) [] 0 0
      | none => .ok (0, 0)
    else .ok (0, 0)
  match asideCounts with
  | .error e => .error e
  | .ok (unw, dup) => .ok ⟨scriptsCount, iframeCount, divsCount, unw, dup⟩

/-! ## Basic lemmas about the traversals -/

theorem infosF_cons (n : Node) (ns : Doc) : infosF (n :: ns) = infos1 n ++ infosF ns := by
  simp [infosF]

theorem elemsF_cons (n : Node) (ns : Doc) : elemsF (n :: ns) = elems1 n ++ elemsF ns := by
  simp [elemsF]

theorem infosF_append (a b : Doc) : infosF (a ++ b) = infosF a ++ infosF b := by
  induction a with
  | nil => simp [infosF]
  | cons n ns ih => simp [infosF_cons, ih]

theorem elemsF_append (a b : Doc) : elemsF (a ++ b) = elemsF a ++ elemsF b := by
  induction a with
  | nil => simp [elemsF]
  | cons n ns ih => simp [elemsF_cons, ih]

theorem Node.info_uid : ∀ n : Node, n.info.uid = n.nuid
  | .elem _ _ _ _ => rfl
  | .text _ => rfl

mutual

theorem infos1_eq_map : ∀ n : Node, infos1 n = (elems1 n).map Node.info
  | .elem u t a c => by
    simp [infos1, elems1, Node.info, infosF_eq_map c]
  | .text _ => by simp [infos1, elems1]

theorem infosF_eq_map : ∀ f : Doc, infosF f = (elemsF f).map Node.info
  | [] => by simp [infosF, elemsF]
  | n :: ns => by
    simp [infosF_cons, elemsF_cons, infos1_eq_map n, infosF_eq_map ns]

end

theorem mem_findAll {p : Info → Bool} {f : Doc} {n : Node} :
    n ∈ findAll p f ↔ n ∈ elemsF f ∧ p n.info = true := by
  simp [findAll, List.mem_filter]

theorem findAll_eq_nil {p : Info → Bool} {f : Doc} :
    findAll p f = [] ↔ ∀ i ∈ infosF f, p i = false := by
  rw [findAll, List.filter_eq_nil_iff, infosF_eq_map]
  constructor
  · intro h i hi
    rcases List.mem_map.mp hi with ⟨n, hn, rfl⟩
    simpa using h n hn
  · intro h n hn
    simpa using h n.info (List.mem_map.mpr ⟨n, hn, rfl⟩)

theorem containsUid_iff {u : Nat} {f : Doc} :
    containsUid u f = true ↔ ∃ i ∈ infosF f, i.uid = u := by
  simp [containsUid, List.any_eq_true]

theorem containsUid_eq_false {u : Nat} {f : Doc} :
    containsUid u f = false ↔ ∀ i ∈ infosF f, i.uid ≠ u := by
  simp [containsUid, List.any_eq_false]

theorem containsUid_of_sublist {u : Nat} {g f : Doc}
    (hs : List.Sublist (infosF g) (infosF f)) (h : containsUid u g = true) :
    containsUid u f = true := by
  rcases containsUid_iff.mp h with ⟨i, hi, hiu⟩
  exact containsUid_iff.mpr ⟨i, hs.subset hi, hiu⟩

theorem not_containsUid_of_sublist {u : Nat} {g f : Doc}
    (hs : List.Sublist (infosF g) (infosF f)) (h : containsUid u f = false) :
    containsUid u g = false := by
  cases hg : containsUid u g with
  | false => rfl
  | true => rw [containsUid_of_sublist hs hg] at h; cases h

theorem subtreeByUid_eq_some {u : Nat} {f : Doc} {n : Node}
    (h : subtreeByUid u f = some n) : n ∈ elemsF f ∧ n.nuid = u := by
  refine ⟨List.mem_of_find?_eq_some h, ?_⟩
  have h2 := List.find?_some h
  simpa using h2

theorem containsUid_iff_subtree {u : Nat} {f : Doc} :
    containsUid u f = true ↔ ∃ n, subtreeByUid u f = some n := by
  constructor
  · intro h
    rcases containsUid_iff.mp h with ⟨i, hi, hiu⟩
    rw [infosF_eq_map] at hi
    rcases List.mem_map.mp hi with ⟨n, hn, rfl⟩
    have hex : (subtreeByUid u f).isSome := by
      rw [subtreeByUid, List.find?_isSome]
      refine ⟨n, hn, ?_⟩
      rw [beq_iff_eq, ← Node.info_uid]
      exact hiu
    exact Option.isSome_iff_exists.mp hex
  · intro h
    rcases h with ⟨n, hn⟩
    rcases subtreeByUid_eq_some hn with ⟨hmem, huid⟩
    refine containsUid_iff.mpr ⟨n.info, ?_, by rw [Node.info_uid, huid]⟩
    rw [infosF_eq_map]
    exact List.mem_map.mpr ⟨n, hmem, rfl⟩

/-! ## Lemmas about removal -/

mutual

theorem infos_removeUid1_sublist (u : Nat) :
    ∀ n : Node, List.Sublist (infosF (removeUid1 u n)) (infos1 n)
  | .elem v t a c => by
    rw [removeUid1]
    split
    · simp [infosF]
    · have h1 : infosF [Node.elem v t a (removeUidF u c)] =
          (⟨v, t, a⟩ : Info) :: infosF (removeUidF u c) := by
        simp [infosF_cons, infos1, infosF]
      rw [h1, show infos1 (Node.elem v t a c) = (⟨v, t, a⟩ : Info) :: infosF c by simp [infos1]]
      exact List.Sublist.cons₂ _ (infos_removeUidF_sublist u c)
  | .text s => by simp [removeUid1, infosF_cons, infosF, infos1]

theorem infos_removeUidF_sublist (u : Nat) :
    ∀ f : Doc, List.Sublist (infosF (removeUidF u f)) (infosF f)
  | [] => by simp [removeUidF]
  | n :: ns => by
    rw [removeUidF, infosF_append, infosF_cons]
    exact (infos_removeUid1_sublist u n).append (infos_removeUidF_sublist u ns)

end

mutual

theorem removeUid1_not_contains (u : Nat) :
    ∀ n : Node, ∀ i ∈ infosF (removeUid1 u n), i.uid ≠ u
  | .elem v t a c => by
    intro i hi
    rw [removeUid1] at hi
    by_cases hv : (v == u) = true
    · rw [if_pos hv] at hi
      simp [infosF] at hi
    · rw [if_neg hv] at hi
      have h1 : infosF [Node.elem v t a (removeUidF u c)] =
          (⟨v, t, a⟩ : Info) :: infosF (removeUidF u c) := by
        simp [infosF_cons, infos1, infosF]
      rw [h1] at hi
      rcases List.mem_cons.mp hi with rfl | hi
      · intro hc
        exact hv (by simpa using hc)
      · exact removeUidF_not_contains u c i hi
  | .text s => by simp [removeUid1, infosF_cons, infosF, infos1]

theorem removeUidF_not_contains (u : Nat) :
    ∀ f : Doc, ∀ i ∈ infosF (removeUidF u f), i.uid ≠ u
  | [] => by simp [removeUidF, infosF]
  | n :: ns => by
    intro i hi
    rw [removeUidF, infosF_append] at hi
    rcases List.mem_append.mp hi with hi | hi
    · exact removeUid1_not_contains u n i hi
    · exact removeUidF_not_contains u ns i hi

end

theorem containsUid_removeUidF_self (u : Nat) (f : Doc) :
    containsUid u (removeUidF u f) = false :=
  containsUid_eq_false.mpr (removeUidF_not_contains u f)

mutual

theorem removeUid1_of_not_contains (u : Nat) :
    ∀ n : Node, (∀ i ∈ infos1 n, i.uid ≠ u) → removeUid1 u n = [n]
  | .elem v t a c => by
    intro h
    have hmem : (⟨v, t, a⟩ : Info) ∈ infos1 (Node.elem v t a c) := by
      simp [infos1]
    have hv : v ≠ u := by simpa using h _ hmem
    have hc : ∀ i ∈ infosF c, i.uid ≠ u := by
      intro i hi
      exact h i (by simp [infos1, hi])
    rw [removeUid1, if_neg (by simpa using hv), removeUidF_of_not_contains u c hc]
  | .text s => by intro h; simp [removeUid1]

theorem removeUidF_of_not_contains (u : Nat) :
    ∀ f : Doc, (∀ i ∈ infosF f, i.uid ≠ u) → removeUidF u f = f
  | [] => by intro h; simp [removeUidF]
  | n :: ns => by
    intro h
    rw [infosF_cons] at h
    rw [removeUidF,
      removeUid1_of_not_contains u n (fun i hi => h i (List.mem_append_left _ hi)),
      removeUidF_of_not_contains u ns (fun i hi => h i (List.mem_append_right _ hi))]
    simp

end

/-! ## Lemmas about the decompose loops -/

theorem decomposeAll_ok_sublist :
    ∀ (us : List Nat) (f g : Doc), decomposeAll us f = .ok g →
      List.Sublist (infosF g) (infosF f)
  | [], f, g => by
    intro h
    rw [decomposeAll] at h
    cases h
    exact List.Sublist.refl _
  | u :: us, f, g => by
    intro h
    rw [decomposeAll] at h
    split at h
    · exact (decomposeAll_ok_sublist us _ g h).trans (infos_removeUidF_sublist u f)
    · cases h

theorem decomposeAll_ok_not_contains :
    ∀ (us : List Nat) (f g : Doc), decomposeAll us f = .ok g →
      ∀ u ∈ us, containsUid u g = false
  | [], f, g => by simp
  | v :: us, f, g => by
    intro h u hu
    rw [decomposeAll] at h
    split at h
    · rcases List.mem_cons.mp hu with rfl | hu
      · exact not_containsUid_of_sublist (decomposeAll_ok_sublist us _ g h)
          (containsUid_removeUidF_self u f)
      · exact decomposeAll_ok_not_contains us _ g h u hu
    · cases h

theorem asideLoop_ok_sublist :
    ∀ (l : List Node) (seen : List (Option String)) (unw dup : Nat) (f : Doc)
      (g : Doc) (unw2 dup2 : Nat),
      asideLoop l seen unw dup f = .ok (g, unw2, dup2) →
      List.Sublist (infosF g) (infosF f)
  | [], seen, unw, dup, f, g, unw2, dup2 => by
    intro h
    rw [asideLoop] at h
    cases h
    exact List.Sublist.refl _
  | a :: rest, seen, unw, dup, f, g, unw2, dup2 => by
    intro h
    rw [asideLoop] at h
    split at h
    · split at h
      · cases h
      · split at h
        · exact (asideLoop_ok_sublist rest _ _ _ _ g _ _ h).trans
            (infos_removeUidF_sublist a.nuid f)
        · split at h
          · exact (asideLoop_ok_sublist rest _ _ _ _ g _ _ h).trans
              (infos_removeUidF_sublist a.nuid f)
          · exact asideLoop_ok_sublist rest _ _ _ _ g _ _ h
    · cases h

/-! ## Membership lemmas for subtrees and insertion -/

mutual

theorem infos1_sublist_of_mem1 :
    ∀ n m : Node, m ∈ elems1 n → List.Sublist (infos1 m) (infos1 n)
  | .elem u t a c, m => by
    intro hm
    rw [elems1] at hm
    rcases List.mem_cons.mp hm with rfl | hm
    · exact List.Sublist.refl _
    · rw [show infos1 (Node.elem u t a c) = (⟨u, t, a⟩ : Info) :: infosF c by simp [infos1]]
      exact (infos1_sublist_of_memF c m hm).cons _
  | .text s, m => by simp [elems1]

theorem infos1_sublist_of_memF :
    ∀ (f : Doc) (m : Node), m ∈ elemsF f → List.Sublist (infos1 m) (infosF f)
  | [], m => by simp [elemsF]
  | n :: ns, m => by
    intro hm
    rw [elemsF_cons] at hm
    rw [infosF_cons]
    rcases List.mem_append.mp hm with hm | hm
    · exact (infos1_sublist_of_mem1 n m hm).trans (List.sublist_append_left _ _)
    · exact (infos1_sublist_of_memF ns m hm).trans (List.sublist_append_right _ _)

end

mutual

theorem infos_insertAfter1 (u : Nat) (x : Node) :
    ∀ n : Node, ∀ i ∈ infos1 (insertAfter1 u x n), i ∈ infos1 n ∨ i ∈ infos1 x
  | .elem v t a c => by
    intro i hi
    rw [insertAfter1] at hi
    rw [show infos1 (Node.elem v t a (insertAfterF u x c)) =
        (⟨v, t, a⟩ : Info) :: infosF (insertAfterF u x c) by simp [infos1]] at hi
    rcases List.mem_cons.mp hi with rfl | hi
    · exact Or.inl (by simp [infos1])
    · rcases infosF_insertAfterF u x c i hi with h | h
      · exact Or.inl (by simp [infos1, h])
      · exact Or.inr h
  | .text s => by
    intro i hi
    rw [insertAfter1] at hi
    exact Or.inl hi

theorem infosF_insertAfterF (u : Nat) (x : Node) :
    ∀ f : Doc, ∀ i ∈ infosF (insertAfterF u x f), i ∈ infosF f ∨ i ∈ infos1 x
  | [] => by
    intro i hi
    rw [insertAfterF] at hi
    exact Or.inl hi
  | n :: ns => by
    intro i hi
    rw [insertAfterF] at hi
    rw [infosF_cons]
    split at hi
    · rw [infosF_cons, infosF_cons] at hi
      rcases List.mem_append.mp hi with hi | hi
      · exact Or.inl (List.mem_append_left _ hi)
      · rcases List.mem_append.mp hi with hi | hi
        · exact Or.inr hi
        · rcases infosF_insertAfterF u x ns i hi with h | h
          · exact Or.inl (List.mem_append_right _ h)
          · exact Or.inr h
    · rw [infosF_cons] at hi
      rcases List.mem_append.mp hi with hi | hi
      · rcases infos_insertAfter1 u x n i hi with h | h
        · exact Or.inl (List.mem_append_left _ h)
        · exact Or.inr h
      · rcases infosF_insertAfterF u x ns i hi with h | h
        · exact Or.inl (List.mem_append_right _ h)
        · exact Or.inr h

end

/-! ## Inversion of a successful run -/

theorem moveCore_ok_inv {doc : Doc} {out : Doc} {cs : Counts}
    (h : moveCore doc = Except.ok (out, cs)) :
    ∃ (contentN sidebarN : Node) (f1 f3 f4 : Doc) (unw dup : Nat),
      findFirst (hasId "content") doc = some contentN ∧
      findFirst (hasId "sidebar") doc = some sidebarN ∧
      truthy (some contentN) = true ∧
      truthy (some sidebarN) = true ∧
      scriptStage doc = Except.ok f1 ∧
      divStage (iframeStage f1).1 = Except.ok f3 ∧
      asideStage sidebarN.nuid f3 = Except.ok (f4, unw, dup) ∧
      moveStage contentN.nuid sidebarN.nuid f4 = Except.ok out ∧
      cs = ⟨(scriptMatches doc).length, (iframeStage f1).2,
        (divMatches (iframeStage f1).1).length, unw, dup⟩ := by
  simp only [moveCore] at h
  split at h
  · cases h
  · split at h
    · cases h
    · split at h
      · next hcf hsf =>
        split at h
        · cases h
        · next f1 hf1 =>
          split at h
          · cases h
          · next f3 hf3 =>
            split at h
            · cases h
            · next f4 unw dup hf4 =>
              split at h
              · cases h
              · next out2 hout2 =>
                injection h with h2
                injection h2 with hout hcs
                subst hout
                exact ⟨_, _, _, _, _, _, _, hcf, hsf, by simp_all, by simp_all,
                  hf1, hf3, hf4, hout2, hcs.symm⟩
      · cases h

/-! ## Stage lemmas -/

theorem move_ok_iff {doc out : Doc} :
    move_sidebar_after_content doc = Except.ok out ↔
      ∃ cs, moveCore doc = Except.ok (out, cs) := by
  rw [move_sidebar_after_content]
  cases h : moveCore doc with
  | ok p =>
    cases p with
    | mk o c =>
      simp only [Except.map]
      constructor
      · intro he
        injection he with he
        exact ⟨c, by rw [he]⟩
      · intro he
        rcases he with ⟨cs, hcs⟩
        injection hcs with hcs
        injection hcs with h1 h2
        rw [h1]
  | error e =>
    simp only [Except.map]
    constructor
    · intro he; cases he
    · intro he; rcases he with ⟨cs, hcs⟩; cases hcs

theorem move_error_iff {doc : Doc} {e : PyErr} :
    move_sidebar_after_content doc = Except.error e ↔
      moveCore doc = Except.error e := by
  rw [move_sidebar_after_content]
  cases h : moveCore doc with
  | ok p =>
    simp only [Except.map]
    constructor
    · intro he; cases he
    · intro he; cases he
  | error e2 =>
    simp only [Except.map]
    constructor
    · intro he; injection he with he; rw [he]
    · intro he; injection he with he; rw [he]

theorem iframeStage_fst_sublist (f : Doc) :
    List.Sublist (infosF (iframeStage f).1) (infosF f) := by
  rw [iframeStage]
  split
  · split
    · exact infos_removeUidF_sublist _ f
    · exact List.Sublist.refl _
  · exact List.Sublist.refl _

theorem mem_scriptMatches {f : Doc} {n : Node} :
    n ∈ scriptMatches f ↔ n ∈ elemsF f ∧ isUnwantedScript n.info = true := by
  rw [scriptMatches, isUnwantedScript]
  simp only [List.mem_append, mem_findAll, Bool.or_eq_true]
  tauto

theorem bs4CallMatch_false {p : String → Bool} (hp : ∀ s, p s = false) :
    ∀ v : Option AttrVal, bs4CallMatch p v = false
  | none => rfl
  | some (.vstr s) => hp s
  | some (.vlist l) => by
    rw [bs4CallMatch, hp]
    simp [List.any_eq_false, hp]

theorem sharedaddyListLambda_eq_false (s : String) : sharedaddyListLambda s = false := by
  simp [sharedaddyListLambda]

theorem findAll_sharedaddyList_eq_nil (f : Doc) : findAll isSharedaddyDivList f = [] := by
  apply findAll_eq_nil.mpr
  intro i hi
  rw [isSharedaddyDivList, bs4CallMatch_false sharedaddyListLambda_eq_false]
  simp

theorem divMatches_eq (f : Doc) : divMatches f = findAll isSharedaddyDivStr f := by
  rw [divMatches, findAll_sharedaddyList_eq_nil]
  simp

theorem mem_divMatches {f : Doc} {n : Node} :
    n ∈ divMatches f ↔ n ∈ elemsF f ∧ isSharedaddyDivStr n.info = true := by
  rw [divMatches_eq]
  exact mem_findAll

theorem scriptStage_ok_absent {doc f1 : Doc} (h : scriptStage doc = Except.ok f1) :
    ∀ i ∈ infosF f1, isUnwantedScript i = false := by
  rw [scriptStage] at h
  intro i hi
  cases hp : isUnwantedScript i with
  | false => rfl
  | true =>
    exfalso
    have hidoc : i ∈ infosF doc := (decomposeAll_ok_sublist _ _ _ h).subset hi
    rw [infosF_eq_map] at hidoc
    rcases List.mem_map.mp hidoc with ⟨m, hm, rfl⟩
    have hmem : m ∈ scriptMatches doc := mem_scriptMatches.mpr ⟨hm, hp⟩
    have habs : containsUid m.nuid f1 = false :=
      decomposeAll_ok_not_contains _ _ _ h m.nuid (List.mem_map.mpr ⟨m, hmem, rfl⟩)
    have hcont : containsUid m.nuid f1 = true :=
      containsUid_iff.mpr ⟨m.info, hi, Node.info_uid m⟩
    rw [habs] at hcont
    cases hcont

theorem divStage_ok_absent {f2 f3 : Doc} (h : divStage f2 = Except.ok f3) :
    ∀ i ∈ infosF f3, isSharedaddyDivStr i = false := by
  rw [divStage] at h
  intro i hi
  cases hp : isSharedaddyDivStr i with
  | false => rfl
  | true =>
    exfalso
    have hif2 : i ∈ infosF f2 := (decomposeAll_ok_sublist _ _ _ h).subset hi
    rw [infosF_eq_map] at hif2
    rcases List.mem_map.mp hif2 with ⟨m, hm, rfl⟩
    have hmem : m ∈ divMatches f2 := mem_divMatches.mpr ⟨hm, hp⟩
    have habs : containsUid m.nuid f3 = false :=
      decomposeAll_ok_not_contains _ _ _ h m.nuid (List.mem_map.mpr ⟨m, hmem, rfl⟩)
    have hcont : containsUid m.nuid f3 = true :=
      containsUid_iff.mpr ⟨m.info, hi, Node.info_uid m⟩
    rw [habs] at hcont
    cases hcont

theorem divStage_ok_sublist {f2 f3 : Doc} (h : divStage f2 = Except.ok f3) :
    List.Sublist (infosF f3) (infosF f2) := by
  rw [divStage] at h
  exact decomposeAll_ok_sublist _ _ _ h

theorem asideStage_ok_sublist {su : Nat} {f3 g : Doc} {unw dup : Nat}
    (h : asideStage su f3 = Except.ok (g, unw, dup)) :
    List.Sublist (infosF g) (infosF f3) := by
  rw [asideStage] at h
  exact asideLoop_ok_sublist _ _ _ _ _ _ _ _ h

theorem moveStage_ok_subset {cu su : Nat} {f4 out : Doc}
    (h : moveStage cu su f4 = Except.ok out) :
    ∀ i ∈ infosF out, i ∈ infosF f4 := by
  rw [moveStage] at h
  split at h
  · cases h
  · next sidebarNow hsn =>
    rcases subtreeByUid_eq_some hsn with ⟨hmem, _⟩
    split at h
    · injection h with h
      subst h
      intro i hi
      rcases infosF_insertAfterF cu sidebarNow _ i hi with h2 | h2
      · exact (infos_removeUidF_sublist su f4).subset h2
      · exact (infos1_sublist_of_memF f4 _ hmem).subset h2
    · split at h
      · injection h with h
        subst h
        intro i hi
        exact (infos_removeUidF_sublist su f4).subset hi
      · cases h

theorem moveCore_out_mem_f3 {doc out : Doc} {cs : Counts}
    (h : moveCore doc = Except.ok (out, cs)) :
    ∃ f1 f3 : Doc, scriptStage doc = Except.ok f1 ∧
      divStage (iframeStage f1).1 = Except.ok f3 ∧
      ∀ i ∈ infosF out, i ∈ infosF f3 := by
  rcases moveCore_ok_inv h with
    ⟨cN, sN, f1, f3, f4, unw, dup, hcf, hsf, htc, hts, hf1, hf3, hf4, hms, hcs⟩
  refine ⟨f1, f3, hf1, hf3, ?_⟩
  intro i hi
  exact (asideStage_ok_sublist hf4).subset (moveStage_ok_subset hms i hi)

/-! ## Survivor correspondence: every element of a mutated document stems
from an element of the original with the same identity data and a subtree
that only lost nodes -/

theorem infosF_singleton (n : Node) : infosF [n] = infos1 n := by
  rw [infosF_cons]
  simp [infosF]

theorem elemsF_singleton (n : Node) : elemsF [n] = elems1 n := by
  rw [elemsF_cons]
  simp [elemsF]

mutual

theorem mem_elems1_isElem :
    ∀ n : Node, ∀ m ∈ elems1 n, ∃ v t a c, m = Node.elem v t a c
  | .elem v t a c => by
    intro m hm
    rw [elems1] at hm
    rcases List.mem_cons.mp hm with rfl | hm
    · exact ⟨v, t, a, c, rfl⟩
    · exact mem_elemsF_isElem c m hm
  | .text s => by simp [elems1]

theorem mem_elemsF_isElem :
    ∀ f : Doc, ∀ m ∈ elemsF f, ∃ v t a c, m = Node.elem v t a c
  | [] => by simp [elemsF]
  | n :: ns => by
    intro m hm
    rw [elemsF_cons] at hm
    rcases List.mem_append.mp hm with hm | hm
    · exact mem_elems1_isElem n m hm
    · exact mem_elemsF_isElem ns m hm

end

/-- Whether a node is a text node. -/
def Node.isTextNode : Node → Bool
  | .text _ => true
  | .elem _ _ _ _ => false

/-- Whether an element still has a text child (text children are never
touched by any removal). -/
def hasTextChild (n : Node) : Bool :=
  n.childrenOf.any Node.isTextNode

theorem removeUidF_keeps_text (v : Nat) (c : Doc)
    (h : c.any Node.isTextNode = true) :
    (removeUidF v c).any Node.isTextNode = true := by
  induction c with
  | nil => simp at h
  | cons n ns ih =>
    rw [List.any_cons] at h
    rw [removeUidF, List.any_append]
    cases n with
    | text s =>
      rw [removeUid1]
      simp [Node.isTextNode]
    | elem w t a cc =>
      rw [show Node.isTextNode (Node.elem w t a cc) = false from rfl, Bool.false_or] at h
      rw [ih h]
      simp

mutual

theorem survivor_removeUid1 (v : Nat) :
    ∀ n : Node, ∀ m ∈ elemsF (removeUid1 v n),
      ∃ m0 ∈ elems1 n, m0.info = m.info ∧ List.Sublist (infos1 m) (infos1 m0) ∧
        (hasTextChild m0 = true → hasTextChild m = true)
  | .elem w t a c => by
    intro m hm
    rw [removeUid1] at hm
    split at hm
    · simp [elemsF] at hm
    · rw [elemsF_singleton, elems1] at hm
      rcases List.mem_cons.mp hm with rfl | hm
      · refine ⟨Node.elem w t a c, by simp [elems1], rfl, ?_, ?_⟩
        · rw [show infos1 (Node.elem w t a (removeUidF v c)) =
              (⟨w, t, a⟩ : Info) :: infosF (removeUidF v c) by simp [infos1],
            show infos1 (Node.elem w t a c) = (⟨w, t, a⟩ : Info) :: infosF c by simp [infos1]]
          exact List.Sublist.cons₂ _ (infos_removeUidF_sublist v c)
        · intro ht
          rw [hasTextChild, Node.childrenOf] at ht ⊢
          exact removeUidF_keeps_text v c ht
      · rcases survivor_removeUidF v c m hm with ⟨m0, hm0, he, hs, htx⟩
        exact ⟨m0, by simp [elems1, hm0], he, hs, htx⟩
  | .text s => by simp [removeUid1, elemsF_singleton, elems1]

theorem survivor_removeUidF (v : Nat) :
    ∀ f : Doc, ∀ m ∈ elemsF (removeUidF v f),
      ∃ m0 ∈ elemsF f, m0.info = m.info ∧ List.Sublist (infos1 m) (infos1 m0) ∧
        (hasTextChild m0 = true → hasTextChild m = true)
  | [] => by simp [removeUidF, elemsF]
  | n :: ns => by
    intro m hm
    rw [removeUidF, elemsF_append] at hm
    rw [elemsF_cons]
    rcases List.mem_append.mp hm with hm | hm
    · rcases survivor_removeUid1 v n m hm with ⟨m0, hm0, he, hs, htx⟩
      exact ⟨m0, List.mem_append_left _ hm0, he, hs, htx⟩
    · rcases survivor_removeUidF v ns m hm with ⟨m0, hm0, he, hs, htx⟩
      exact ⟨m0, List.mem_append_right _ hm0, he, hs, htx⟩

end

/-- `Descends g f`: every element of `g` stems from an element of `f`
with the same identity data, a subtree that only lost nodes, and its text
children still in place. -/
def Descends (g f : Doc) : Prop :=
  ∀ m ∈ elemsF g, ∃ m0 ∈ elemsF f, m0.info = m.info ∧
    List.Sublist (infos1 m) (infos1 m0) ∧
    (hasTextChild m0 = true → hasTextChild m = true)

theorem Descends.refl (f : Doc) : Descends f f :=
  fun m hm => ⟨m, hm, rfl, List.Sublist.refl _, fun h => h⟩

theorem Descends.trans {h g f : Doc} (h1 : Descends h g) (h2 : Descends g f) :
    Descends h f := by
  intro m hm
  rcases h1 m hm with ⟨m1, hm1, he1, hs1, ht1⟩
  rcases h2 m1 hm1 with ⟨m0, hm0, he0, hs0, ht0⟩
  refine ⟨m0, hm0, he0.trans he1, hs1.trans hs0, fun ht => ?_⟩
  exact ht1 (ht0 ht)

theorem descends_removeUidF (v : Nat) (f : Doc) : Descends (removeUidF v f) f :=
  survivor_removeUidF v f

theorem decomposeAll_ok_descends :
    ∀ (us : List Nat) (f g : Doc), decomposeAll us f = Except.ok g → Descends g f
  | [], f, g => by
    intro h
    rw [decomposeAll] at h
    cases h
    exact Descends.refl _
  | u :: us, f, g => by
    intro h
    rw [decomposeAll] at h
    split at h
    · exact (decomposeAll_ok_descends us _ g h).trans (descends_removeUidF u f)
    · cases h

theorem iframeStage_descends (f : Doc) : Descends (iframeStage f).1 f := by
  rw [iframeStage]
  split
  · split
    · exact descends_removeUidF _ f
    · exact Descends.refl _
  · exact Descends.refl _

theorem asideLoop_ok_descends :
    ∀ (l : List Node) (seen : List (Option String)) (unw dup : Nat) (f : Doc)
      (g : Doc) (unw2 dup2 : Nat),
      asideLoop l seen unw dup f = Except.ok (g, unw2, dup2) → Descends g f
  | [], seen, unw, dup, f, g, unw2, dup2 => by
    intro h
    rw [asideLoop] at h
    cases h
    exact Descends.refl _
  | a :: rest, seen, unw, dup, f, g, unw2, dup2 => by
    intro h
    rw [asideLoop] at h
    split at h
    · split at h
      · cases h
      · split at h
        · exact (asideLoop_ok_descends rest _ _ _ _ g _ _ h).trans
            (descends_removeUidF a.nuid f)
        · split at h
          · exact (asideLoop_ok_descends rest _ _ _ _ g _ _ h).trans
              (descends_removeUidF a.nuid f)
          · exact asideLoop_ok_descends rest _ _ _ _ g _ _ h
    · cases h

theorem asideStage_ok_descends {su : Nat} {f3 g : Doc} {unw dup : Nat}
    (h : asideStage su f3 = Except.ok (g, unw, dup)) : Descends g f3 := by
  rw [asideStage] at h
  exact asideLoop_ok_descends _ _ _ _ _ _ _ _ h

theorem moveCore_f4_descends {doc out : Doc} {cs : Counts}
    (h : moveCore doc = Except.ok (out, cs)) :
    ∃ (contentN sidebarN : Node) (f4 : Doc),
      findFirst (hasId "content") doc = some contentN ∧
      findFirst (hasId "sidebar") doc = some sidebarN ∧
      Descends f4 doc ∧
      moveStage contentN.nuid sidebarN.nuid f4 = Except.ok out := by
  rcases moveCore_ok_inv h with
    ⟨cN, sN, f1, f3, f4, unw, dup, hcf, hsf, htc, hts, hf1, hf3, hf4, hms, hcs⟩
  rw [scriptStage] at hf1
  rw [divStage] at hf3
  refine ⟨cN, sN, f4, hcf, hsf, ?_, hms⟩
  exact ((asideStage_ok_descends hf4).trans
    ((decomposeAll_ok_descends _ _ _ hf3).trans
      ((iframeStage_descends f1).trans (decomposeAll_ok_descends _ _ _ hf1))))

/-! ## First-match and uid-distinctness lemmas -/

theorem findFirst_mem {p : Info → Bool} {f : Doc} {n : Node}
    (h : findFirst p f = some n) : n ∈ elemsF f ∧ p n.info = true := by
  rw [findFirst] at h
  have hmem : n ∈ findAll p f := by
    cases hfa : findAll p f with
    | nil => rw [hfa] at h; simp at h
    | cons a l =>
      rw [hfa] at h
      simp only [List.head?] at h
      injection h with h
      rw [← h]
      exact List.mem_cons_self a l
  exact mem_findAll.mp hmem

/-- All element identities of the document are distinct (true of any
freshly parsed tree, where every tag is a distinct Python object). -/
def UidsNodup (f : Doc) : Prop := ((infosF f).map Info.uid).Nodup

instance (f : Doc) : Decidable (UidsNodup f) :=
  inferInstanceAs (Decidable (((infosF f).map Info.uid).Nodup))

theorem uid_inj_of_nodup {f : Doc} (h : UidsNodup f) :
    ∀ m ∈ elemsF f, ∀ m2 ∈ elemsF f, m.nuid = m2.nuid → m = m2 := by
  intro m hm m2 hm2 he
  have hnd : ((elemsF f).map (fun n => n.info.uid)).Nodup := by
    rw [UidsNodup, infosF_eq_map, List.map_map] at h
    exact h
  have := List.inj_on_of_nodup_map hnd hm hm2 (by rw [Node.info_uid, Node.info_uid, he])
  exact this

/-! ## Sibling adjacency -/

/-- Whether the first node of the forest is the element with identity `su`. -/
def headIsElemWithUid (su : Nat) : Doc → Bool
  | m :: _ => isElemWithUid su m
  | [] => false

mutual

/-- Whether, below this node, the element with identity `su` sits in some
children list directly after the element with identity `cu`. -/
def adjacentAfter1 (cu su : Nat) : Node → Bool
  | .elem _ _ _ c => adjacentAfterF cu su c
  | .text _ => false

/-- Whether, in this forest, the element with identity `su` is the
sibling immediately following the element with identity `cu` (same
children list, nothing in between). -/
def adjacentAfterF (cu su : Nat) : Doc → Bool
  | [] => false
  | n :: ns =>
    (isElemWithUid cu n && headIsElemWithUid su ns) ||
    adjacentAfter1 cu su n || adjacentAfterF cu su ns

end

mutual

theorem adjacent_insertAfter1 (cu su : Nat) (x : Node) (hx : isElemWithUid su x = true) :
    ∀ n : Node, isElemWithUid cu n = false → containsUid cu [n] = true →
      adjacentAfter1 cu su (insertAfter1 cu x n) = true
  | .elem v t a c => by
    intro hn hc
    rw [containsUid, infosF_singleton,
      show infos1 (Node.elem v t a c) = (⟨v, t, a⟩ : Info) :: infosF c by simp [infos1]] at hc
    rw [List.any_cons] at hc
    have hv : (v == cu) = false := by simpa [isElemWithUid] using hn
    rw [show ((⟨v, t, a⟩ : Info).uid == cu) = false from hv, Bool.false_or] at hc
    rw [insertAfter1, adjacentAfter1]
    exact adjacent_insertAfterF cu su x hx c hc
  | .text s => by
    intro hn hc
    rw [containsUid, infosF_singleton] at hc
    simp [infos1] at hc

theorem adjacent_insertAfterF (cu su : Nat) (x : Node) (hx : isElemWithUid su x = true) :
    ∀ f : Doc, containsUid cu f = true →
      adjacentAfterF cu su (insertAfterF cu x f) = true
  | [] => by
    intro h
    rw [containsUid] at h
    simp [infosF] at h
  | n :: ns => by
    intro h
    rw [insertAfterF]
    by_cases hn : isElemWithUid cu n = true
    · rw [if_pos hn, adjacentAfterF,
        show headIsElemWithUid su (x :: insertAfterF cu x ns) = true by
          rw [headIsElemWithUid]; exact hx, hn]
      simp
    · rw [if_neg hn]
      have hn2 : isElemWithUid cu n = false := by
        cases hn3 : isElemWithUid cu n with
        | false => rfl
        | true => exact absurd hn3 hn
      have h2 : containsUid cu [n] = true ∨ containsUid cu ns = true := by
        rw [containsUid, infosF_cons, List.any_append, Bool.or_eq_true] at h
        rcases h with h | h
        · exact Or.inl (by rw [containsUid, infosF_singleton]; exact h)
        · exact Or.inr h
      rw [adjacentAfterF]
      rcases h2 with h2 | h2
      · rw [adjacent_insertAfter1 cu su x hx n hn2 h2]
        simp
      · rw [adjacent_insertAfterF cu su x hx ns h2]
        simp

end

/-! ## Spec-side predicates (the wording of the specification) -/

/-- The scripts the specification says must be removed: a script whose id
starts with jetpack-, sharing-js or comment-reply, or a script whose type
attribute equals speculationrules. -/
def specUnwantedScript (i : Info) : Bool :=
  i.tag == "script" &&
    ((match i.attr "id" with
      | some (.vstr s) =>
        strStartsWith s "jetpack-" || strStartsWith s "sharing-js" ||
          strStartsWith s "comment-reply"
      | _ => false) ||
     (match i.attr "type" with
      | some (.vstr s) => s == "speculationrules"
      | _ => false))

/-- The class tokens of a space-separated class string. -/
def classTokens (s : String) : List String :=
  (s.data.splitOn ' ').map (fun cs => String.mk cs)

/-- The divs the specification says must be removed: a div whose class
attribute - a single space-separated string or a list of tokens -
contains at least one token starting with sharedaddy. -/
def specSharedaddyDiv (i : Info) : Bool :=
  i.tag == "div" &&
    (match i.attr "class" with
     | some (.vstr s) => (classTokens s).any (fun t => strStartsWith t "sharedaddy")
     | some (.vlist l) => l.any (fun t => strStartsWith t "sharedaddy")
     | none => false)

theorem strStartsWith_not_empty {s p : String} (hp : p.data ≠ [])
    (h : strStartsWith s p = true) : s.isEmpty = false := by
  cases hs : s.isEmpty with
  | false => rfl
  | true =>
    exfalso
    have hs2 : s = "" := (String.isEmpty_iff s).mp hs
    subst hs2
    rw [strStartsWith] at h
    cases hpd : p.data with
    | nil => exact hp hpd
    | cons c cs =>
      rw [hpd] at h
      simp [List.isPrefixOf] at h

theorem specUnwantedScript_imp {i : Info} (h : specUnwantedScript i = true) :
    isUnwantedScript i = true := by
  rw [specUnwantedScript, Bool.and_eq_true] at h
  rcases h with ⟨htag, hrest⟩
  rw [isUnwantedScript]
  rw [Bool.or_eq_true] at hrest
  rcases hrest with hid | hty
  · cases hv : i.attr "id" with
    | none => rw [hv] at hid; cases hid
    | some v =>
      cases v with
      | vlist l => rw [hv] at hid; cases hid
      | vstr s =>
        rw [hv] at hid
        rw [Bool.or_eq_true, Bool.or_eq_true] at hid
        rcases hid with hid | hid3
        · rcases hid with hid1 | hid2
          · rw [isJetpackScript, htag, hv]
            have : jetpackIdLambda s = true := by
              rw [jetpackIdLambda, strStartsWith_not_empty (by simp) hid1, hid1]
              rfl
            simp [bs4CallMatch, this]
          · rw [isSharingScript, htag, hv]
            have : sharingIdLambda s = true := by
              rw [sharingIdLambda, strStartsWith_not_empty (by simp) hid2, hid2]
              rfl
            simp [bs4CallMatch, this]
        · rw [isCommentReplyScript, htag, hv]
          have : commentReplyIdLambda s = true := by
            rw [commentReplyIdLambda, strStartsWith_not_empty (by simp) hid3, hid3]
            rfl
          simp [bs4CallMatch, this]
  · cases hv : i.attr "type" with
    | none => rw [hv] at hty; cases hty
    | some v =>
      cases v with
      | vlist l => rw [hv] at hty; cases hty
      | vstr s =>
        rw [hv] at hty
        rw [isSpeculationScript, htag, hv]
        have hty2 : (s == "speculationrules") = true := by simpa using hty
        simp [bs4StrMatch, hty2]

/-! ## Which exceptions each stage can raise -/

theorem decomposeAll_error_eq :
    ∀ (us : List Nat) (f : Doc) (e : PyErr), decomposeAll us f = Except.error e →
      e = PyErr.attributeErr
  | [], f, e => by
    intro h
    rw [decomposeAll] at h
    cases h
  | u :: us, f, e => by
    intro h
    rw [decomposeAll] at h
    split at h
    · exact decomposeAll_error_eq us _ e h
    · injection h with h
      rw [h]

theorem pyIdKey_error_eq {v : Option AttrVal} {e : PyErr}
    (h : pyIdKey v = Except.error e) : e = PyErr.typeErr := by
  rcases v with _ | v
  · rw [pyIdKey] at h; cases h
  · rcases v with s | l
    · rw [pyIdKey] at h; cases h
    · rw [pyIdKey] at h
      injection h with h
      rw [h]

theorem asideLoop_error_eq :
    ∀ (l : List Node) (seen : List (Option String)) (unw dup : Nat) (f : Doc)
      (e : PyErr), asideLoop l seen unw dup f = Except.error e →
      e = PyErr.attributeErr ∨ e = PyErr.typeErr
  | [], seen, unw, dup, f, e => by
    intro h
    rw [asideLoop] at h
    cases h
  | a :: rest, seen, unw, dup, f, e => by
    intro h
    rw [asideLoop] at h
    split at h
    · split at h
      · next e2 he2 =>
        injection h with h
        subst h
        exact Or.inr (pyIdKey_error_eq he2)
      · split at h
        · exact asideLoop_error_eq rest _ _ _ _ e h
        · split at h
          · exact asideLoop_error_eq rest _ _ _ _ e h
          · exact asideLoop_error_eq rest _ _ _ _ e h
    · injection h with h
      exact Or.inl h.symm

theorem moveStage_error_eq {cu su : Nat} {f : Doc} {e : PyErr}
    (h : moveStage cu su f = Except.error e) : e = PyErr.attributeErr := by
  rw [moveStage] at h
  split at h
  · injection h with h
    exact h.symm
  · split at h
    · cases h
    · split at h
      · cases h
      · injection h with h
        exact h.symm

theorem scriptStage_error_eq {doc : Doc} {e : PyErr}
    (h : scriptStage doc = Except.error e) : e = PyErr.attributeErr := by
  rw [scriptStage] at h
  exact decomposeAll_error_eq _ _ _ h

theorem divStage_error_eq {f2 : Doc} {e : PyErr}
    (h : divStage f2 = Except.error e) : e = PyErr.attributeErr := by
  rw [divStage] at h
  exact decomposeAll_error_eq _ _ _ h

theorem asideStage_error_eq {su : Nat} {f3 : Doc} {e : PyErr}
    (h : asideStage su f3 = Except.error e) :
    e = PyErr.attributeErr ∨ e = PyErr.typeErr := by
  rw [asideStage] at h
  exact asideLoop_error_eq _ _ _ _ _ _ h

theorem truthy_some {o : Option Node} (h : truthy o = true) : ∃ n, o = some n := by
  cases o with
  | none => rw [truthy] at h; cases h
  | some n => exact ⟨n, rfl⟩

theorem moveCore_late_no_valueErr {doc : Doc}
    (hc : truthy (findFirst (hasId "content") doc) = true)
    (hs : truthy (findFirst (hasId "sidebar") doc) = true) (s : String) :
    moveCore doc ≠ Except.error (PyErr.valueErr s) := by
  intro h
  rcases truthy_some hc with ⟨cN, hcN⟩
  rcases truthy_some hs with ⟨sN, hsN⟩
  simp only [moveCore, hcN, hsN] at h
  rw [hcN] at hc
  rw [hsN] at hs
  simp only [hc, hs, Bool.not_true, Bool.false_eq_true, if_false] at h
  split at h
  · next e he =>
    injection h with h
    rw [h] at he
    cases scriptStage_error_eq he
  · split at h
    · next e he =>
      injection h with h
      rw [h] at he
      cases divStage_error_eq he
    · split at h
      · next e he =>
        injection h with h
        rw [h] at he
        rcases asideStage_error_eq he with h2 | h2 <;> cases h2
      · split at h
        · next e he =>
          injection h with h
          rw [h] at he
          cases moveStage_error_eq he
        · cases h

theorem moveCore_content_error_of_falsy {doc : Doc}
    (h : truthy (findFirst (hasId "content") doc) = false) :
    moveCore doc = Except.error (PyErr.valueErr "content") := by
  simp [moveCore, h]

theorem moveCore_sidebar_error_of_falsy {doc : Doc}
    (hc : truthy (findFirst (hasId "content") doc) = true)
    (hs : truthy (findFirst (hasId "sidebar") doc) = false) :
    moveCore doc = Except.error (PyErr.valueErr "sidebar") := by
  simp [moveCore, hc, hs]

theorem moveCore_content_error_iff {doc : Doc} :
    moveCore doc = Except.error (PyErr.valueErr "content") ↔
      truthy (findFirst (hasId "content") doc) = false := by
  constructor
  · intro h
    cases hc : truthy (findFirst (hasId "content") doc) with
    | false => rfl
    | true =>
      exfalso
      cases hs : truthy (findFirst (hasId "sidebar") doc) with
      | true => exact moveCore_late_no_valueErr hc hs "content" h
      | false =>
        rw [moveCore_sidebar_error_of_falsy hc hs] at h
        injection h with h
        injection h with h
        simp at h
  · exact moveCore_content_error_of_falsy

theorem moveCore_sidebar_error_iff {doc : Doc} :
    moveCore doc = Except.error (PyErr.valueErr "sidebar") ↔
      (truthy (findFirst (hasId "content") doc) = true ∧
       truthy (findFirst (hasId "sidebar") doc) = false) := by
  constructor
  · intro h
    cases hc : truthy (findFirst (hasId "content") doc) with
    | false =>
      exfalso
      rw [moveCore_content_error_of_falsy hc] at h
      injection h with h
      injection h with h
      simp at h
    | true =>
      cases hs : truthy (findFirst (hasId "sidebar") doc) with
      | false => exact ⟨rfl, rfl⟩
      | true => exact absurd h (moveCore_late_no_valueErr hc hs "sidebar")
  · intro h
    exact moveCore_sidebar_error_of_falsy h.1 h.2

/-! ## Claim C10 -/

/-- C10: the presence checks test Python truthiness of the found tag, and
a tag with no children is falsy; so when the first element with id
content exists but has no children the transformation raises the
missing-section error naming content, and likewise for sidebar (checked
after content).  Empty content/sidebar elements are treated as absent. -/
theorem c10_empty_section_treated_missing (doc : Doc) (u u2 : Nat)
    (t t2 : String) (a a2 : List (String × AttrVal)) :
    (findFirst (hasId "content") doc = some (Node.elem u t a []) →
      move_sidebar_after_content doc = Except.error (PyErr.valueErr "content")) ∧
    (truthy (findFirst (hasId "content") doc) = true →
      findFirst (hasId "sidebar") doc = some (Node.elem u2 t2 a2 []) →
      move_sidebar_after_content doc = Except.error (PyErr.valueErr "sidebar")) := by
  constructor
  · intro h
    rw [move_error_iff]
    apply moveCore_content_error_of_falsy
    rw [h, truthy]
    simp
  · intro hc h
    rw [move_error_iff]
    apply moveCore_sidebar_error_of_falsy hc
    rw [h, truthy]
    simp

/-- The document of the C10 witness: a content div that exists but has no
children, and a nonempty sidebar. -/
def docC10 : Doc :=
  [Node.elem 1 "div" [("id", AttrVal.vstr "content")] [],
   Node.elem 2 "div" [("id", AttrVal.vstr "sidebar")] [Node.text "x"]]

theorem c10_witness :
    move_sidebar_after_content docC10 = Except.error (PyErr.valueErr "content") :=
  (c10_empty_section_treated_missing docC10 1 0 "div" "" [("id", AttrVal.vstr "content")] []).1
    (by decide)

/-! ## Claim C3 -/

/-- The document of the C3 counterexample: it does contain an element
with id content (an empty div), and a nonempty sidebar. -/
def docC3 : Doc :=
  [Node.elem 1 "div" [("id", AttrVal.vstr "content")] [],
   Node.elem 2 "div" [("id", AttrVal.vstr "sidebar")] [Node.text "s"]]

/-- C3 counterexample: the claim says the error naming content is raised
exactly when the document has no element with id content; here the
document has exactly one element with id content, yet the transformation
raises the error naming content (the element has no children and is
falsy). -/
theorem c3_counterexample :
    (findAll (hasId "content") docC3).length = 1 ∧
    move_sidebar_after_content docC3 = Except.error (PyErr.valueErr "content") := by
  constructor
  · decide
  · decide

/-- C3 amended: the error naming content is raised exactly when the
content lookup is falsy - no element with id content, or the first such
element has no children; the error naming sidebar is raised exactly when
the content lookup is truthy and the sidebar lookup falsy (content is
checked first).  In either failure case the function produces no output
document, so the observable text is unchanged. -/
theorem c3_missing_section_errors (doc : Doc) :
    (move_sidebar_after_content doc = Except.error (PyErr.valueErr "content") ↔
      truthy (findFirst (hasId "content") doc) = false) ∧
    (move_sidebar_after_content doc = Except.error (PyErr.valueErr "sidebar") ↔
      (truthy (findFirst (hasId "content") doc) = true ∧
       truthy (findFirst (hasId "sidebar") doc) = false)) := by
  constructor
  · rw [move_error_iff]
    exact moveCore_content_error_iff
  · rw [move_error_iff]
    exact moveCore_sidebar_error_iff

/-! ## Claim C9 -/

/-- C9: determinism.  The transformation is embedded as a pure function
of the input tree - the source's only set operations are membership
tests, which carry no iteration-order dependence - so any two runs on
identical input text return byte-for-byte identical output. -/
theorem c9_deterministic (d1 d2 : Doc) (h : d1 = d2) :
    move_sidebar_after_content d1 = move_sidebar_after_content d2 := by
  rw [h]

/-- The document of the C9 witness. -/
def docC9 : Doc :=
  [Node.elem 1 "div" [("id", AttrVal.vstr "content")] [Node.text "a"],
   Node.elem 2 "div" [("id", AttrVal.vstr "sidebar")] [Node.text "b"]]

theorem c9_witness :
    move_sidebar_after_content docC9 = move_sidebar_after_content docC9 :=
  c9_deterministic docC9 docC9 rfl

/-! ## Claim C7 -/

/-- C7: when the transformation succeeds, no script whose id starts with
jetpack-, sharing-js or comment-reply, and no script whose type equals
speculationrules, occurs anywhere in the output; in particular every such
script present before the transformation is absent after it. -/
theorem c7_unwanted_scripts_absent (doc out : Doc)
    (hok : move_sidebar_after_content doc = Except.ok out) :
    findAll specUnwantedScript out = [] := by
  rcases move_ok_iff.mp hok with ⟨cs, hmc⟩
  rcases moveCore_out_mem_f3 hmc with ⟨f1, f3, hf1, hf3, hsub⟩
  apply findAll_eq_nil.mpr
  intro i hi
  cases hp : specUnwantedScript i with
  | false => rfl
  | true =>
    exfalso
    have hif3 : i ∈ infosF f3 := hsub i hi
    have hif1 : i ∈ infosF f1 :=
      ((divStage_ok_sublist hf3).trans (iframeStage_fst_sublist f1)).subset hif3
    have habs := scriptStage_ok_absent hf1 i hif1
    rw [specUnwantedScript_imp hp] at habs
    cases habs

/-- The document of the C7 witness: a jetpack script and a
speculationrules script beside content and sidebar. -/
def docC7 : Doc :=
  [Node.elem 1 "div" [("id", AttrVal.vstr "content")] [Node.text "a"],
   Node.elem 2 "div" [("id", AttrVal.vstr "sidebar")] [Node.text "b"],
   Node.elem 3 "script" [("id", AttrVal.vstr "jetpack-foo")] [Node.text "x"],
   Node.elem 4 "script" [("type", AttrVal.vstr "speculationrules")] [Node.text "y"]]

/-- The output of the transformation on `docC7`. -/
def docC7out : Doc :=
  [Node.elem 1 "div" [("id", AttrVal.vstr "content")] [Node.text "a"],
   Node.elem 2 "div" [("id", AttrVal.vstr "sidebar")] [Node.text "b"]]

theorem c7_witness : findAll specUnwantedScript docC7out = [] :=
  c7_unwanted_scripts_absent docC7 docC7out (by decide)

/-! ## Claim C6 -/

/-- The list-stored half of the specification's div condition: a div
whose class attribute is stored as a list with a token starting with
sharedaddy. -/
def specSharedaddyListDiv (i : Info) : Bool :=
  i.tag == "div" &&
    (match i.attr "class" with
     | some (.vlist l) => l.any (fun t => strStartsWith t "sharedaddy")
     | _ => false)

theorem specSharedaddyListDiv_imp {i : Info} (h : specSharedaddyListDiv i = true) :
    isSharedaddyDivStr i = true := by
  rw [specSharedaddyListDiv, Bool.and_eq_true] at h
  rcases h with ⟨htag, hcl⟩
  rw [isSharedaddyDivStr, htag]
  cases hv : i.attr "class" with
  | none => rw [hv] at hcl; cases hcl
  | some v =>
    cases v with
    | vstr s => rw [hv] at hcl; cases hcl
    | vlist l =>
      rw [hv] at hcl
      have hcl2 : l.any (fun t => strStartsWith t "sharedaddy") = true := by
        simpa using hcl
      rw [List.any_eq_true] at hcl2
      rcases hcl2 with ⟨tok, htok, hpre⟩
      have hany : l.any sharedaddyStrLambda = true := by
        rw [List.any_eq_true]
        exact ⟨tok, htok, hpre⟩
      simp only [bs4CallMatch, hany]
      simp

/-- The document of the C6 counterexample: a div whose class attribute is
stored as the single string "foo sharedaddy" - it has a class token
starting with sharedaddy, so the claim requires its removal. -/
def docC6 : Doc :=
  [Node.elem 1 "div" [("id", AttrVal.vstr "content")] [Node.text "a"],
   Node.elem 2 "div" [("id", AttrVal.vstr "sidebar")] [Node.text "b"],
   Node.elem 3 "div" [("class", AttrVal.vstr "foo sharedaddy")] [Node.text "x"]]

/-- C6 counterexample: the div with string-stored class
"foo sharedaddy" contains a class token starting with sharedaddy, the
transformation succeeds, yet the div survives in the output: the
fallback search tests only whether the whole class string starts with
sharedaddy. -/
theorem c6_counterexample :
    (findAll specSharedaddyDiv docC6).length = 1 ∧
    move_sidebar_after_content docC6 = Except.ok docC6 ∧
    (findAll specSharedaddyDiv docC6).length = 1 := by
  refine ⟨by decide, by decide, by decide⟩

/-- C6 amended: after a successful transformation no div matched by the
search the code actually runs survives: no div whose class, stored as a
list, has a token starting with sharedaddy (as the claim demands), and no
div whose class, stored as a single string, starts - as a whole - with
sharedaddy.  A div whose string-stored class merely contains a later
sharedaddy token is not matched and survives (see the counterexample). -/
theorem c6_sharedaddy_divs_absent (doc out : Doc)
    (hok : move_sidebar_after_content doc = Except.ok out) :
    findAll isSharedaddyDivStr out = [] ∧ findAll specSharedaddyListDiv out = [] := by
  rcases move_ok_iff.mp hok with ⟨cs, hmc⟩
  rcases moveCore_out_mem_f3 hmc with ⟨f1, f3, hf1, hf3, hsub⟩
  have habs : ∀ i ∈ infosF out, isSharedaddyDivStr i = false := by
    intro i hi
    exact divStage_ok_absent hf3 i (hsub i hi)
  constructor
  · exact findAll_eq_nil.mpr habs
  · apply findAll_eq_nil.mpr
    intro i hi
    cases hp : specSharedaddyListDiv i with
    | false => rfl
    | true =>
      exfalso
      have := habs i hi
      rw [specSharedaddyListDiv_imp hp] at this
      cases this

/-- The document of the C6 witness: a div whose list-stored class has a
token starting with sharedaddy. -/
def docC6w : Doc :=
  [Node.elem 1 "div" [("id", AttrVal.vstr "content")] [Node.text "a"],
   Node.elem 2 "div" [("id", AttrVal.vstr "sidebar")] [Node.text "b"],
   Node.elem 3 "div" [("class", AttrVal.vlist ["foo", "sharedaddy-share"])] [Node.text "x"]]

/-- The output of the transformation on `docC6w`. -/
def docC6wOut : Doc :=
  [Node.elem 1 "div" [("id", AttrVal.vstr "content")] [Node.text "a"],
   Node.elem 2 "div" [("id", AttrVal.vstr "sidebar")] [Node.text "b"]]

theorem c6_witness :
    findAll isSharedaddyDivStr docC6wOut = [] ∧
    findAll specSharedaddyListDiv docC6wOut = [] :=
  c6_sharedaddy_divs_absent docC6w docC6wOut (by decide)

/-! ## Claim C8 -/

theorem unique_match_info {doc g : Doc} {p : Info → Bool} {n : Node}
    (hfa : findAll p doc = [n])
    (hsub : List.Sublist (infosF g) (infosF doc)) :
    ∀ i ∈ infosF g, p i = true → i = n.info := by
  intro i hi hp
  have hidoc : i ∈ infosF doc := hsub.subset hi
  rw [infosF_eq_map] at hidoc
  rcases List.mem_map.mp hidoc with ⟨m, hm, rfl⟩
  have hmem : m ∈ findAll p doc := mem_findAll.mpr ⟨hm, hp⟩
  rw [hfa] at hmem
  rw [List.mem_singleton.mp hmem]

/-- The document of the C8 counterexample: two nonempty likes-master
iframes. -/
def docC8 : Doc :=
  [Node.elem 1 "div" [("id", AttrVal.vstr "content")] [Node.text "a"],
   Node.elem 2 "div" [("id", AttrVal.vstr "sidebar")] [Node.text "b"],
   Node.elem 3 "iframe" [("id", AttrVal.vstr "likes-master")] [Node.text "x"],
   Node.elem 4 "iframe" [("id", AttrVal.vstr "likes-master")] [Node.text "y"]]

/-- The output of the transformation on `docC8`: the second likes-master
iframe survives. -/
def docC8out : Doc :=
  [Node.elem 1 "div" [("id", AttrVal.vstr "content")] [Node.text "a"],
   Node.elem 2 "div" [("id", AttrVal.vstr "sidebar")] [Node.text "b"],
   Node.elem 4 "iframe" [("id", AttrVal.vstr "likes-master")] [Node.text "y"]]

/-- C8 counterexample: with two likes-master iframes present before the
transformation, the run succeeds but one of them is still present after,
refuting "any iframe with id likes-master present before transformation
is absent after". -/
theorem c8_counterexample :
    (findAll isLikesIframe docC8).length = 2 ∧
    move_sidebar_after_content docC8 = Except.ok docC8out ∧
    (findAll isLikesIframe docC8out).length = 1 := by
  refine ⟨by decide, by decide, by decide⟩

/-- C8 amended: the iframe pass removes at most one node - the first
likes-master iframe, in document order after script removal, and only
when it is truthy (has children).  Consequently, when the document has
distinct uids, contains at most one likes-master iframe, and that iframe
keeps a text child, a successful transformation leaves no likes-master
iframe in the output. -/
theorem c8_likes_iframe_removed (doc out : Doc)
    (hnd : UidsNodup doc)
    (hok : move_sidebar_after_content doc = Except.ok out)
    (hone : (findAll isLikesIframe doc).length ≤ 1)
    (htext : ∀ n ∈ findAll isLikesIframe doc, hasTextChild n = true) :
    findAll isLikesIframe out = [] ∧ ∀ f : Doc, (iframeStage f).2 ≤ 1 := by
  constructor
  · rcases move_ok_iff.mp hok with ⟨cs, hmc⟩
    rcases moveCore_ok_inv hmc with
      ⟨cN, sN, f1, f3, f4, unw, dup, hcf, hsf, htc, hts, hf1, hf3, hf4, hms, hcs⟩
    have hsub43 := asideStage_ok_sublist hf4
    have hsub32 := divStage_ok_sublist hf3
    have hsub21 := iframeStage_fst_sublist f1
    have hsub1d : List.Sublist (infosF f1) (infosF doc) := by
      rw [scriptStage] at hf1
      exact decomposeAll_ok_sublist _ _ _ hf1
    apply findAll_eq_nil.mpr
    intro i hi
    cases hp : isLikesIframe i with
    | false => rfl
    | true =>
      exfalso
      have hi3 : i ∈ infosF f3 := hsub43.subset (moveStage_ok_subset hms i hi)
      have hi2 : i ∈ infosF (iframeStage f1).1 := hsub32.subset hi3
      have hi1 : i ∈ infosF f1 := hsub21.subset hi2
      have hid : i ∈ infosF doc := hsub1d.subset hi1
      cases hfa : findAll isLikesIframe doc with
      | nil =>
        rw [infosF_eq_map] at hid
        rcases List.mem_map.mp hid with ⟨m, hm, rfl⟩
        have hmem : m ∈ findAll isLikesIframe doc := mem_findAll.mpr ⟨hm, hp⟩
        rw [hfa] at hmem
        simp at hmem
      | cons n rest =>
        have hrest : rest = [] := by
          rw [hfa] at hone
          cases rest with
          | nil => rfl
          | cons b bs => simp at hone
        subst hrest
        have hieq : i = n.info :=
          unique_match_info hfa (List.Sublist.refl _) i hid hp
        have hnmem : n ∈ elemsF doc :=
          (mem_findAll.mp (by rw [hfa]; exact List.mem_singleton_self n)).1
        have hmatch : ∃ m2, findFirst isLikesIframe f1 = some m2 := by
          cases hfa1 : findAll isLikesIframe f1 with
          | nil =>
            exfalso
            have hx := findAll_eq_nil.mp hfa1 i hi1
            rw [hp] at hx
            cases hx
          | cons a l =>
            exact ⟨a, by rw [findFirst, hfa1]; rfl⟩
        rcases hmatch with ⟨m2, hm2⟩
        rcases findFirst_mem hm2 with ⟨hm2mem, hm2p⟩
        have hm2i : m2.info = n.info := by
          apply unique_match_info hfa hsub1d
          · rw [infosF_eq_map]
            exact List.mem_map.mpr ⟨m2, hm2mem, rfl⟩
          · exact hm2p
        have hdesc1 : Descends f1 doc := by
          rw [scriptStage] at hf1
          exact decomposeAll_ok_descends _ _ _ hf1
        rcases hdesc1 m2 hm2mem with ⟨m0, hm0, hm0i, _, htx⟩
        have hm0n : m0 = n := by
          apply uid_inj_of_nodup hnd m0 hm0 n hnmem
          rw [← Node.info_uid, ← Node.info_uid, hm0i, hm2i]
        have htextn : hasTextChild n = true := htext n (by rw [hfa]; simp)
        have htxm2 : hasTextChild m2 = true := htx (by rw [hm0n]; exact htextn)
        have htr : truthy (some m2) = true := by
          rcases mem_elemsF_isElem f1 m2 hm2mem with ⟨v, t, a, c, rfl⟩
          rw [truthy]
          rw [hasTextChild, Node.childrenOf] at htxm2
          cases c with
          | nil => simp at htxm2
          | cons y ys => simp
        have hf2eq : (iframeStage f1).1 = removeUidF m2.nuid f1 := by
          rw [iframeStage, hm2]
          simp [htr]
        have hcont : containsUid m2.nuid (iframeStage f1).1 = true := by
          apply containsUid_iff.mpr
          refine ⟨i, hi2, ?_⟩
          rw [hieq, ← hm2i, Node.info_uid]
        rw [hf2eq, containsUid_removeUidF_self] at hcont
        cases hcont
  · intro f
    rw [iframeStage]
    split
    · split
      · simp
      · simp
    · simp

/-- The document of the C8 witness: a single nonempty likes-master
iframe. -/
def docC8w : Doc :=
  [Node.elem 1 "div" [("id", AttrVal.vstr "content")] [Node.text "a"],
   Node.elem 2 "div" [("id", AttrVal.vstr "sidebar")] [Node.text "b"],
   Node.elem 3 "iframe" [("id", AttrVal.vstr "likes-master")] [Node.text "x"]]

/-- The output of the transformation on `docC8w`. -/
def docC8wOut : Doc :=
  [Node.elem 1 "div" [("id", AttrVal.vstr "content")] [Node.text "a"],
   Node.elem 2 "div" [("id", AttrVal.vstr "sidebar")] [Node.text "b"]]

theorem c8_witness :
    findAll isLikesIframe docC8wOut = [] ∧ ∀ f : Doc, (iframeStage f).2 ≤ 1 :=
  c8_likes_iframe_removed docC8w docC8wOut (by decide) (by decide) (by decide) (by decide)

/-! ## Claim C1 -/

/-- The document of the C1 counterexample: it contains one element with
id content (an empty div, hence falsy) and one with id sidebar, neither
contains the other, yet the transformation fails, so the sidebar is not
repositioned after the content node. -/
def docC1c : Doc :=
  [Node.elem 1 "div" [("id", AttrVal.vstr "content")] [],
   Node.elem 2 "div" [("id", AttrVal.vstr "sidebar")] [Node.text "s"]]

/-- C1 counterexample: the claim quantifies over every document with a
content element and a sidebar element where neither is or contains the
other, and asserts the sidebar ends up directly after the content node;
here such a document makes the transformation raise instead (the content
element has no children and is falsy), so there is no output in which the
sidebar follows the content node. -/
theorem c1_counterexample :
    (findAll (hasId "content") docC1c).length = 1 ∧
    (findAll (hasId "sidebar") docC1c).length = 1 ∧
    containsUid 2 (Node.elem 1 "div" [("id", AttrVal.vstr "content")] []).childrenOf = false ∧
    containsUid 1 (Node.elem 2 "div" [("id", AttrVal.vstr "sidebar")] [Node.text "s"]).childrenOf = false ∧
    move_sidebar_after_content docC1c = Except.error (PyErr.valueErr "content") := by
  refine ⟨by decide, by decide, by decide, by decide, by decide⟩

/-- C1 amended: for a document with distinct uids on which the
transformation succeeds, whose chosen content and sidebar nodes are
distinct and neither contains the other, the output places the chosen
sidebar node in the children list of the content node's parent as the
sibling immediately following the content node. -/
theorem c1_sidebar_follows_content (doc out : Doc) (contentN sidebarN : Node)
    (hnd : UidsNodup doc)
    (hcf : findFirst (hasId "content") doc = some contentN)
    (hsf : findFirst (hasId "sidebar") doc = some sidebarN)
    (hne : contentN ≠ sidebarN)
    (hcs : containsUid sidebarN.nuid contentN.childrenOf = false)
    (hsc : containsUid contentN.nuid sidebarN.childrenOf = false)
    (hok : move_sidebar_after_content doc = Except.ok out) :
    adjacentAfterF contentN.nuid sidebarN.nuid out = true := by
  rcases move_ok_iff.mp hok with ⟨cs, hmc⟩
  rcases moveCore_f4_descends hmc with ⟨cN, sN, f4, hcf2, hsf2, hdesc, hms⟩
  rw [hcf] at hcf2
  injection hcf2 with hcf2
  rw [hsf] at hsf2
  injection hsf2 with hsf2
  subst hcf2
  subst hsf2
  rw [moveStage] at hms
  split at hms
  · cases hms
  · next sidebarNow hsn =>
    rcases subtreeByUid_eq_some hsn with ⟨hmem4, hsnu⟩
    rcases mem_elemsF_isElem f4 sidebarNow hmem4 with ⟨v, t, a, c, rfl⟩
    have hv : v = sidebarN.nuid := by simpa [Node.nuid] using hsnu
    have hcNmem : contentN ∈ elemsF doc := (findFirst_mem hcf).1
    have hsNmem : sidebarN ∈ elemsF doc := (findFirst_mem hsf).1
    have hnotin : containsUid contentN.nuid [Node.elem v t a c] = false := by
      rcases hdesc _ hmem4 with ⟨m0, hm0, hinfo, hsub, _⟩
      have hm0uid : m0.nuid = sidebarN.nuid := by
        rw [← Node.info_uid, hinfo, Node.info_uid]
        exact hsnu
      have hm0s : m0 = sidebarN := uid_inj_of_nodup hnd m0 hm0 sidebarN hsNmem hm0uid
      subst hm0s
      rw [containsUid_eq_false]
      intro i hi hiu
      rw [infosF_singleton] at hi
      have hiS : i ∈ infos1 m0 := hsub.subset hi
      rcases mem_elemsF_isElem doc m0 hm0 with ⟨v2, t2, a2, c2, hm0e⟩
      rw [hm0e, show infos1 (Node.elem v2 t2 a2 c2) =
          (⟨v2, t2, a2⟩ : Info) :: infosF c2 by simp [infos1]] at hiS
      rcases List.mem_cons.mp hiS with rfl | hiS
      · apply hne
        apply uid_inj_of_nodup hnd contentN hcNmem m0 hm0
        have hm0nuid : m0.nuid = v2 := by rw [hm0e]; simp [Node.nuid]
        rw [hm0nuid, ← hiu]
      · have hcontra : containsUid contentN.nuid m0.childrenOf = true := by
          rw [hm0e, Node.childrenOf]
          exact containsUid_iff.mpr ⟨i, hiS, hiu⟩
        rw [hsc] at hcontra
        cases hcontra
    split at hms
    · next hcont =>
      injection hms with hms
      subst hms
      apply adjacent_insertAfterF
      · rw [isElemWithUid]
        simp [hv]
      · exact hcont
    · next hncont =>
      split at hms
      · next hcont2 =>
        rw [hnotin] at hcont2
        cases hcont2
      · cases hms

/-- The document of the C1 witness. -/
def docC1w : Doc :=
  [Node.elem 1 "body" [] [
    Node.elem 2 "div" [("id", AttrVal.vstr "sidebar")] [Node.text "s"],
    Node.elem 3 "p" [] [Node.text "m"],
    Node.elem 4 "div" [("id", AttrVal.vstr "content")] [Node.text "c"]]]

/-- The output of the transformation on `docC1w`. -/
def docC1wOut : Doc :=
  [Node.elem 1 "body" [] [
    Node.elem 3 "p" [] [Node.text "m"],
    Node.elem 4 "div" [("id", AttrVal.vstr "content")] [Node.text "c"],
    Node.elem 2 "div" [("id", AttrVal.vstr "sidebar")] [Node.text "s"]]]

theorem c1_witness : adjacentAfterF 4 2 docC1wOut = true :=
  c1_sidebar_follows_content docC1w docC1wOut
    (Node.elem 4 "div" [("id", AttrVal.vstr "content")] [Node.text "c"])
    (Node.elem 2 "div" [("id", AttrVal.vstr "sidebar")] [Node.text "s"])
    (by decide) (by decide) (by decide) (by decide) (by decide) (by decide) (by decide)

/-! ## Scoped traversal: the infos strictly below the element with a
given identity -/

mutual

/-- The infos of the strict descendants of the element with identity
`su`, collected below one node. -/
def subInfos1 (su : Nat) : Node → List Info
  | .elem v t a c => if v == su then infosF c else subInfosF su c
  | .text _ => []

/-- The infos of the strict descendants of the element with identity
`su` in this forest. -/
def subInfosF (su : Nat) : Doc → List Info
  | [] => []
  | n :: ns => subInfos1 su n ++ subInfosF su ns

end

mutual

theorem subInfos1_sublist (su : Nat) :
    ∀ n : Node, List.Sublist (subInfos1 su n) (infos1 n)
  | .elem v t a c => by
    rw [subInfos1, show infos1 (Node.elem v t a c) = (⟨v, t, a⟩ : Info) :: infosF c
      by simp [infos1]]
    split
    · exact (List.Sublist.refl _).cons _
    · exact (subInfosF_sublist su c).trans ((List.Sublist.refl _).cons _)
  | .text _ => by simp [subInfos1, infos1]

theorem subInfosF_sublist (su : Nat) :
    ∀ f : Doc, List.Sublist (subInfosF su f) (infosF f)
  | [] => by simp [subInfosF, infosF]
  | n :: ns => by
    rw [subInfosF, infosF_cons]
    exact (subInfos1_sublist su n).append (subInfosF_sublist su ns)

end

mutual

theorem subInfos1_eq_nil (su : Nat) :
    ∀ n : Node, (∀ i ∈ infos1 n, i.uid ≠ su) → subInfos1 su n = []
  | .elem v t a c => by
    intro h
    rw [subInfos1, if_neg]
    · exact subInfosF_eq_nil su c (fun i hi => h i (by simp [infos1, hi]))
    · have := h ⟨v, t, a⟩ (by simp [infos1])
      simpa using this
  | .text _ => by intro h; rfl

theorem subInfosF_eq_nil (su : Nat) :
    ∀ f : Doc, (∀ i ∈ infosF f, i.uid ≠ su) → subInfosF su f = []
  | [] => by intro h; rfl
  | n :: ns => by
    intro h
    rw [infosF_cons] at h
    rw [subInfosF,
      subInfos1_eq_nil su n (fun i hi => h i (List.mem_append_left _ hi)),
      subInfosF_eq_nil su ns (fun i hi => h i (List.mem_append_right _ hi))]
    rfl

end

mutual

theorem removed_in_subtree1 (u : Nat) :
    ∀ n : Node, ∀ i ∈ infos1 n, i ∉ infosF (removeUid1 u n) →
      i.uid = u ∨ i ∈ subInfos1 u n
  | .elem v t a c => by
    intro i hi hni
    rw [show infos1 (Node.elem v t a c) = (⟨v, t, a⟩ : Info) :: infosF c
      by simp [infos1]] at hi
    rw [removeUid1] at hni
    rw [subInfos1]
    by_cases hv : (v == u) = true
    · rw [if_pos hv]
      rcases List.mem_cons.mp hi with rfl | hi
      · exact Or.inl (by simpa using hv)
      · exact Or.inr hi
    · rw [if_neg hv] at hni ⊢
      rw [show infosF [Node.elem v t a (removeUidF u c)] =
          (⟨v, t, a⟩ : Info) :: infosF (removeUidF u c) by
        simp [infosF_cons, infos1, infosF]] at hni
      rcases List.mem_cons.mp hi with rfl | hi
      · exact absurd (List.mem_cons_self _ _) hni
      · exact removed_in_subtreeF u c i hi (fun hx => hni (List.mem_cons_of_mem _ hx))
  | .text s => by simp [infos1]

theorem removed_in_subtreeF (u : Nat) :
    ∀ f : Doc, ∀ i ∈ infosF f, i ∉ infosF (removeUidF u f) →
      i.uid = u ∨ i ∈ subInfosF u f
  | [] => by simp [infosF]
  | n :: ns => by
    intro i hi hni
    rw [infosF_cons] at hi
    rw [removeUidF, infosF_append] at hni
    rw [subInfosF]
    rcases List.mem_append.mp hi with hi | hi
    · rcases removed_in_subtree1 u n i hi
        (fun hx => hni (List.mem_append_left _ hx)) with h | h
      · exact Or.inl h
      · exact Or.inr (List.mem_append_left _ h)
    · rcases removed_in_subtreeF u ns i hi
        (fun hx => hni (List.mem_append_right _ hx)) with h | h
      · exact Or.inl h
      · exact Or.inr (List.mem_append_right _ h)

end

theorem survives_removal {u : Nat} {f : Doc} {i : Info}
    (hi : i ∈ infosF f) (hu : i.uid ≠ u) (hsub : i ∉ subInfosF u f) :
    i ∈ infosF (removeUidF u f) := by
  by_contra hni
  rcases removed_in_subtreeF u f i hi hni with h | h
  · exact hu h
  · exact hsub h

/-! ## List helpers: sublists of a duplicate-free list -/

theorem sublist_eq_of_mem_iff {α : Type} :
    ∀ {L l1 l2 : List α}, List.Sublist l1 L → List.Sublist l2 L → L.Nodup →
      (∀ x, x ∈ l1 ↔ x ∈ l2) → l1 = l2 := by
  intro L
  induction L with
  | nil =>
    intro l1 l2 h1 h2 _ _
    rw [List.sublist_nil.mp h1, List.sublist_nil.mp h2]
  | cons a L ih =>
    intro l1 l2 h1 h2 hN hm
    have hNt : L.Nodup := (List.nodup_cons.mp hN).2
    have haL : a ∉ L := (List.nodup_cons.mp hN).1
    cases h1 with
    | cons _ h1 =>
      have ha1 : a ∉ l1 := fun hx => haL (h1.subset hx)
      cases h2 with
      | cons _ h2 =>
        have ha2 : a ∉ l2 := fun hx => haL (h2.subset hx)
        exact ih h1 h2 hNt hm
      | cons₂ _ h2 =>
        exfalso
        have : a ∈ l1 := (hm a).mpr (List.mem_cons_self _ _)
        exact haL (h1.subset this)
    | cons₂ _ h1 =>
      rename_i l1'
      cases h2 with
      | cons _ h2 =>
        exfalso
        have : a ∈ l2 := (hm a).mp (List.mem_cons_self _ _)
        exact haL (h2.subset this)
      | cons₂ _ h2 =>
        rename_i l2'
        have ha1 : a ∉ l1' := fun hx => haL (h1.subset hx)
        have ha2 : a ∉ l2' := fun hx => haL (h2.subset hx)
        have hm2 : ∀ x, x ∈ l1' ↔ x ∈ l2' := by
          intro x
          rcases eq_or_ne x a with rfl | hxa
          · constructor
            · intro hx; exact absurd hx ha1
            · intro hx; exact absurd hx ha2
          · constructor
            · intro hx
              have := (hm x).mp (List.mem_cons_of_mem _ hx)
              rcases List.mem_cons.mp this with h | h
              · exact absurd h hxa
              · exact h
            · intro hx
              have := (hm x).mpr (List.mem_cons_of_mem _ hx)
              rcases List.mem_cons.mp this with h | h
              · exact absurd h hxa
              · exact h
        rw [ih h1 h2 hNt hm2]

/-! ## Distinct uids: decomposition and consequences -/

/-- Distinctness of uids below one node. -/
def UidsNodup1 (n : Node) : Prop := ((infos1 n).map Info.uid).Nodup

theorem uidsNodup_cons {n : Node} {ns : Doc} :
    UidsNodup (n :: ns) ↔
      UidsNodup1 n ∧ UidsNodup ns ∧
        ∀ i ∈ infos1 n, ∀ j ∈ infosF ns, i.uid ≠ j.uid := by
  rw [UidsNodup, infosF_cons, List.map_append, List.nodup_append]
  constructor
  · rintro ⟨h1, h2, h3⟩
    refine ⟨h1, h2, ?_⟩
    intro i hi j hj he
    exact h3 (List.mem_map.mpr ⟨i, hi, rfl⟩) (by rw [he]; exact List.mem_map.mpr ⟨j, hj, rfl⟩)
  · rintro ⟨h1, h2, h3⟩
    refine ⟨h1, h2, ?_⟩
    intro x hx hx2
    rcases List.mem_map.mp hx with ⟨i, hi, rfl⟩
    rcases List.mem_map.mp hx2 with ⟨j, hj, hji⟩
    exact h3 i hi j hj hji.symm

theorem uidsNodup1_elem {v : Nat} {t : String} {a : List (String × AttrVal)}
    {c : List Node} :
    UidsNodup1 (Node.elem v t a c) ↔
      (∀ i ∈ infosF c, i.uid ≠ v) ∧ UidsNodup c := by
  have hinf : infos1 (Node.elem v t a c) = (⟨v, t, a⟩ : Info) :: infosF c := by
    simp [infos1]
  have huid : (⟨v, t, a⟩ : Info).uid = v := rfl
  rw [UidsNodup1, hinf, List.map_cons, List.nodup_cons]
  constructor
  · rintro ⟨h1, h2⟩
    refine ⟨?_, h2⟩
    intro i hi he
    apply h1
    rw [huid, ← he]
    exact List.mem_map.mpr ⟨i, hi, rfl⟩
  · rintro ⟨h1, h2⟩
    refine ⟨?_, h2⟩
    rw [huid]
    intro hv
    rcases List.mem_map.mp hv with ⟨i, hi, hiu⟩
    exact h1 i hi hiu

theorem uidsNodup_of_sublist {g f : Doc}
    (hs : List.Sublist (infosF g) (infosF f)) (h : UidsNodup f) : UidsNodup g :=
  List.Nodup.sublist (hs.map Info.uid) h

theorem infos_uid_inj {f : Doc} (h : UidsNodup f) :
    ∀ i ∈ infosF f, ∀ j ∈ infosF f, i.uid = j.uid → i = j := by
  intro i hi j hj he
  exact List.inj_on_of_nodup_map h hi hj he

theorem infos_nodup {f : Doc} (h : UidsNodup f) : (infosF f).Nodup :=
  List.Nodup.of_map _ h

/-! ## More lemmas about the scoped traversal -/

theorem subInfosF_cons (su : Nat) (n : Node) (ns : Doc) :
    subInfosF su (n :: ns) = subInfos1 su n ++ subInfosF su ns := by
  rw [subInfosF]

theorem subInfosF_nil (su : Nat) : subInfosF su [] = [] := by
  rw [subInfosF]

theorem subInfosF_singleton (su : Nat) (n : Node) :
    subInfosF su [n] = subInfos1 su n := by
  rw [subInfosF_cons, subInfosF_nil, List.append_nil]

theorem subInfosF_append (su : Nat) (a b : Doc) :
    subInfosF su (a ++ b) = subInfosF su a ++ subInfosF su b := by
  induction a with
  | nil => rw [List.nil_append, subInfosF_nil, List.nil_append]
  | cons n ns ih =>
    rw [List.cons_append, subInfosF_cons, subInfosF_cons, ih, List.append_assoc]

mutual

theorem subInfos_removeUid1_sublist (su v : Nat) :
    ∀ n : Node, List.Sublist (subInfosF su (removeUid1 v n)) (subInfos1 su n)
  | .elem w t a c => by
    rw [removeUid1]
    split
    · rw [subInfosF_nil]
      exact List.nil_sublist _
    · rw [subInfosF_singleton, subInfos1, subInfos1]
      by_cases hw : (w == su) = true
      · rw [if_pos hw, if_pos hw]
        exact infos_removeUidF_sublist v c
      · rw [if_neg hw, if_neg hw]
        exact subInfos_removeUidF_sublist su v c
  | .text s => by
    rw [removeUid1, subInfosF_singleton]

theorem subInfos_removeUidF_sublist (su v : Nat) :
    ∀ f : Doc, List.Sublist (subInfosF su (removeUidF v f)) (subInfosF su f)
  | [] => by
    rw [removeUidF]
  | n :: ns => by
    rw [removeUidF, subInfosF_append, subInfosF_cons]
    exact (subInfos_removeUid1_sublist su v n).append (subInfos_removeUidF_sublist su v ns)

end

theorem mem_infos1_of_childrenOf :
    ∀ n : Node, ∀ j ∈ infosF n.childrenOf, j ∈ infos1 n
  | .elem v t a c => by
    intro j hj
    rw [Node.childrenOf] at hj
    rw [show infos1 (Node.elem v t a c) = (⟨v, t, a⟩ : Info) :: infosF c by simp [infos1]]
    exact List.mem_cons_of_mem _ hj
  | .text s => by
    intro j hj
    rw [Node.childrenOf] at hj
    rw [infosF] at hj
    exact absurd hj (List.not_mem_nil j)

mutual

theorem mem_subInfos1_exists (su : Nat) :
    ∀ n : Node, ∀ j ∈ subInfos1 su n,
      ∃ m ∈ elems1 n, m.nuid = su ∧ j ∈ infosF m.childrenOf
  | .elem v t a c => by
    intro j hj
    rw [subInfos1] at hj
    by_cases hv : (v == su) = true
    · rw [if_pos hv] at hj
      refine ⟨Node.elem v t a c, ?_, ?_, ?_⟩
      · rw [elems1]
        exact List.mem_cons_self _ _
      · rw [Node.nuid]
        simpa using hv
      · rw [Node.childrenOf]
        exact hj
    · rw [if_neg hv] at hj
      rcases mem_subInfosF_exists su c j hj with ⟨m, hm, hmu, hmj⟩
      refine ⟨m, ?_, hmu, hmj⟩
      rw [elems1]
      exact List.mem_cons_of_mem _ hm
  | .text s => by
    intro j hj
    rw [subInfos1] at hj
    exact absurd hj (List.not_mem_nil j)

theorem mem_subInfosF_exists (su : Nat) :
    ∀ f : Doc, ∀ j ∈ subInfosF su f,
      ∃ m ∈ elemsF f, m.nuid = su ∧ j ∈ infosF m.childrenOf
  | [] => by
    intro j hj
    rw [subInfosF_nil] at hj
    exact absurd hj (List.not_mem_nil j)
  | n :: ns => by
    intro j hj
    rw [subInfosF_cons] at hj
    rw [elemsF_cons]
    rcases List.mem_append.mp hj with hj | hj
    · rcases mem_subInfos1_exists su n j hj with ⟨m, hm, hmu, hmj⟩
      exact ⟨m, List.mem_append_left _ hm, hmu, hmj⟩
    · rcases mem_subInfosF_exists su ns j hj with ⟨m, hm, hmu, hmj⟩
      exact ⟨m, List.mem_append_right _ hm, hmu, hmj⟩

end

mutual

theorem subInfos1_of_mem (su : Nat) :
    ∀ m : Node, ∀ n ∈ elems1 m, n.nuid = su →
      ∀ j ∈ infosF n.childrenOf, j ∈ subInfos1 su m
  | .elem v t a c => by
    intro n hn hnu j hj
    rw [elems1] at hn
    rw [subInfos1]
    rcases List.mem_cons.mp hn with rfl | hn
    · have hv : (v == su) = true := by
        rw [beq_iff_eq]
        rw [Node.nuid] at hnu
        exact hnu
      rw [if_pos hv]
      rw [Node.childrenOf] at hj
      exact hj
    · by_cases hv : (v == su) = true
      · rw [if_pos hv]
        exact (infos1_sublist_of_memF c n hn).subset (mem_infos1_of_childrenOf n j hj)
      · rw [if_neg hv]
        exact subInfosF_of_mem su c n hn hnu j hj
  | .text s => by
    intro n hn
    rw [elems1] at hn
    exact absurd hn (List.not_mem_nil n)

theorem subInfosF_of_mem (su : Nat) :
    ∀ f : Doc, ∀ n ∈ elemsF f, n.nuid = su →
      ∀ j ∈ infosF n.childrenOf, j ∈ subInfosF su f
  | [] => by
    intro n hn
    rw [elemsF] at hn
    exact absurd hn (List.not_mem_nil n)
  | m :: ms => by
    intro n hn hnu j hj
    rw [elemsF_cons] at hn
    rw [subInfosF_cons]
    rcases List.mem_append.mp hn with hn | hn
    · exact List.mem_append_left _ (subInfos1_of_mem su m n hn hnu j hj)
    · exact List.mem_append_right _ (subInfosF_of_mem su ms n hn hnu j hj)

end

theorem mem_subInfos_childrenOf {f : Doc} {n : Node} {j : Info}
    (hnd : UidsNodup f) (hn : n ∈ elemsF f) (hj : j ∈ subInfosF n.nuid f) :
    j ∈ infosF n.childrenOf := by
  rcases mem_subInfosF_exists n.nuid f j hj with ⟨m, hm, hmu, hmj⟩
  rw [uid_inj_of_nodup hnd m hm n hn hmu] at hmj
  exact hmj

mutual

theorem elems1_sublist_of_mem1 :
    ∀ n m : Node, m ∈ elems1 n → List.Sublist (elems1 m) (elems1 n)
  | .elem u t a c, m => by
    intro hm
    rw [elems1] at hm
    rcases List.mem_cons.mp hm with rfl | hm
    · exact List.Sublist.refl _
    · rw [elems1]
      exact (elems1_sublist_of_memF c m hm).cons _
  | .text s, m => by
    intro hm
    rw [elems1] at hm
    exact absurd hm (List.not_mem_nil m)

theorem elems1_sublist_of_memF :
    ∀ (f : Doc) (m : Node), m ∈ elemsF f → List.Sublist (elems1 m) (elemsF f)
  | [], m => by
    intro hm
    rw [elemsF] at hm
    exact absurd hm (List.not_mem_nil m)
  | n :: ns, m => by
    intro hm
    rw [elemsF_cons] at hm
    rw [elemsF_cons]
    rcases List.mem_append.mp hm with hm | hm
    · exact (elems1_sublist_of_mem1 n m hm).trans (List.sublist_append_left _ _)
    · exact (elems1_sublist_of_memF ns m hm).trans (List.sublist_append_right _ _)

end

theorem subtreeByUid_unique {f : Doc} {n : Node} {u : Nat}
    (hnd : UidsNodup f) (hn : n ∈ elemsF f) (hu : n.nuid = u) :
    subtreeByUid u f = some n := by
  cases hfind : subtreeByUid u f with
  | none =>
    exfalso
    rw [subtreeByUid] at hfind
    exact List.find?_eq_none.mp hfind n hn (by rw [hu]; simp)
  | some m =>
    rcases subtreeByUid_eq_some hfind with ⟨hm, hmu⟩
    rw [uid_inj_of_nodup hnd m hm n hn (by rw [hmu, hu])]

/-! ## In a duplicate-free preorder traversal, an element never occurs
inside the subtree of a later element -/

mutual

theorem pairwise_not_inside1 :
    ∀ n : Node, UidsNodup1 n →
      (elems1 n).Pairwise (fun x y => x.info ∉ infosF y.childrenOf)
  | .elem v t a c => by
    intro h
    rcases uidsNodup1_elem.mp h with ⟨hne, hc⟩
    rw [elems1, List.pairwise_cons]
    constructor
    · intro y hy hmem
      have h1 : (Node.elem v t a c).info ∈ infos1 y := mem_infos1_of_childrenOf y _ hmem
      have h2 : (Node.elem v t a c).info ∈ infosF c :=
        (infos1_sublist_of_memF c y hy).subset h1
      exact hne _ h2 rfl
    · exact pairwise_not_insideF c hc
  | .text s => by
    intro h
    rw [elems1]
    exact List.Pairwise.nil

theorem pairwise_not_insideF :
    ∀ f : Doc, UidsNodup f →
      (elemsF f).Pairwise (fun x y => x.info ∉ infosF y.childrenOf)
  | [] => by
    intro h
    rw [elemsF]
    exact List.Pairwise.nil
  | n :: ns => by
    intro h
    rcases uidsNodup_cons.mp h with ⟨h1, h2, h3⟩
    rw [elemsF_cons, List.pairwise_append]
    refine ⟨pairwise_not_inside1 n h1, pairwise_not_insideF ns h2, ?_⟩
    intro x hx y hy hmem
    have hx1 : x.info ∈ infos1 n := by
      rw [infos1_eq_map]
      exact List.mem_map.mpr ⟨x, hx, rfl⟩
    have hy1 : x.info ∈ infosF ns :=
      (infos1_sublist_of_memF ns y hy).subset (mem_infos1_of_childrenOf y _ hmem)
    exact h3 x.info hx1 x.info hy1 rfl

end

theorem pairwise_nuid_ne {f : Doc} (hnd : UidsNodup f) :
    (elemsF f).Pairwise (fun x y => x.nuid ≠ y.nuid) := by
  have h : ((elemsF f).map (fun n => n.info.uid)).Nodup := by
    rw [UidsNodup, infosF_eq_map, List.map_map] at hnd
    exact hnd
  have h2 : (elemsF f).Pairwise (fun x y => x.info.uid ≠ y.info.uid) :=
    List.pairwise_map.mp h
  refine h2.imp ?_
  intro a b hab
  rw [Node.info_uid, Node.info_uid] at hab
  exact hab

/-! ## Insertion into a tree that does not hold the target is a no-op -/

mutual

theorem insertAfter1_of_not_contains (u : Nat) (x : Node) :
    ∀ n : Node, (∀ i ∈ infos1 n, i.uid ≠ u) → insertAfter1 u x n = n
  | .elem v t a c => by
    intro h
    rw [insertAfter1, insertAfterF_of_not_contains u x c (fun i hi => h i (by
      rw [show infos1 (Node.elem v t a c) = (⟨v, t, a⟩ : Info) :: infosF c by simp [infos1]]
      exact List.mem_cons_of_mem _ hi))]
  | .text s => by
    intro h
    rw [insertAfter1]

theorem insertAfterF_of_not_contains (u : Nat) (x : Node) :
    ∀ f : Doc, (∀ i ∈ infosF f, i.uid ≠ u) → insertAfterF u x f = f
  | [] => by
    intro h
    rw [insertAfterF]
  | n :: ns => by
    intro h
    rw [infosF_cons] at h
    have hn : ¬ (isElemWithUid u n = true) := by
      cases n with
      | elem v t a c =>
        rw [isElemWithUid]
        have hv : v ≠ u := h ⟨v, t, a⟩ (List.mem_append_left _ (by simp [infos1]))
        simp [hv]
      | text s =>
        rw [isElemWithUid]
        simp
    rw [insertAfterF, if_neg hn,
      insertAfter1_of_not_contains u x n (fun i hi => h i (List.mem_append_left _ hi)),
      insertAfterF_of_not_contains u x ns (fun i hi => h i (List.mem_append_right _ hi))]

end

theorem containsUid_cons (u : Nat) (n : Node) (ns : Doc) :
    containsUid u (n :: ns) = (containsUid u [n] || containsUid u ns) := by
  rw [containsUid, containsUid, containsUid, infosF_cons, List.any_append, infosF_singleton]

/-! ## Inserting after a uniquely occurring element permutes the infos -/

mutual

theorem infos_insertAfter1_perm (u : Nat) (x : Node) :
    ∀ n : Node, UidsNodup1 n → containsUid u [n] = true → isElemWithUid u n = false →
      List.Perm (infos1 (insertAfter1 u x n)) (infos1 n ++ infos1 x)
  | .elem v t a c => by
    intro hN hc hv
    rcases uidsNodup1_elem.mp hN with ⟨hne, hcN⟩
    have hvu : v ≠ u := by
      rw [isElemWithUid] at hv
      simpa using hv
    have hcc : containsUid u c = true := by
      rcases containsUid_iff.mp hc with ⟨i, hi, hiu⟩
      rw [infosF_singleton,
        show infos1 (Node.elem v t a c) = (⟨v, t, a⟩ : Info) :: infosF c by simp [infos1]] at hi
      rcases List.mem_cons.mp hi with rfl | hi
      · exact absurd hiu hvu
      · exact containsUid_iff.mpr ⟨i, hi, hiu⟩
    rw [insertAfter1,
      show infos1 (Node.elem v t a (insertAfterF u x c)) =
        (⟨v, t, a⟩ : Info) :: infosF (insertAfterF u x c) by simp [infos1],
      show infos1 (Node.elem v t a c) = (⟨v, t, a⟩ : Info) :: infosF c by simp [infos1],
      List.cons_append]
    exact List.Perm.cons _ (infos_insertAfterF_perm u x c hcN hcc)
  | .text s => by
    intro hN hc hv
    rw [containsUid, infosF_singleton] at hc
    simp [infos1] at hc

theorem infos_insertAfterF_perm (u : Nat) (x : Node) :
    ∀ f : Doc, UidsNodup f → containsUid u f = true →
      List.Perm (infosF (insertAfterF u x f)) (infosF f ++ infos1 x)
  | [] => by
    intro hN hc
    rw [containsUid] at hc
    simp [infosF] at hc
  | n :: ns => by
    intro hN hc
    rcases uidsNodup_cons.mp hN with ⟨h1, h2, h3⟩
    rw [insertAfterF]
    by_cases hn : isElemWithUid u n = true
    · rw [if_pos hn]
      have hnns : ∀ j ∈ infosF ns, j.uid ≠ u := by
        cases n with
        | elem v t a c =>
          rw [isElemWithUid] at hn
          have hv : v = u := by simpa using hn
          subst hv
          intro j hj hju
          exact h3 ⟨v, t, a⟩ (by simp [infos1]) j hj (by rw [hju])
        | text s =>
          rw [isElemWithUid] at hn
          cases hn
      rw [insertAfterF_of_not_contains u x ns hnns, infosF_cons, infosF_cons, infosF_cons,
        List.append_assoc]
      exact List.Perm.append_left (infos1 n) List.perm_append_comm
    · rw [if_neg hn]
      rw [containsUid_cons, Bool.or_eq_true] at hc
      rcases hc with hc | hc
      · have hnotns : ∀ j ∈ infosF ns, j.uid ≠ u := by
          rcases containsUid_iff.mp hc with ⟨i, hi, hiu⟩
          rw [infosF_singleton] at hi
          intro j hj hju
          exact h3 i hi j hj (by rw [hiu, hju])
        rw [insertAfterF_of_not_contains u x ns hnotns, infosF_cons, infosF_cons]
        have hp := infos_insertAfter1_perm u x n h1 hc (by
          cases hni : isElemWithUid u n with
          | false => rfl
          | true => exact absurd hni hn)
        refine (hp.append_right (infosF ns)).trans ?_
        rw [List.append_assoc, List.append_assoc]
        exact List.Perm.append_left _ List.perm_append_comm
      · have hnotn : ∀ i ∈ infos1 n, i.uid ≠ u := by
          intro i hi hiu
          rcases containsUid_iff.mp hc with ⟨j, hj, hju⟩
          exact h3 i hi j hj (by rw [hiu, hju])
        rw [insertAfter1_of_not_contains u x n hnotn, infosF_cons, infosF_cons,
          List.append_assoc]
        exact List.Perm.append_left _ (infos_insertAfterF_perm u x ns h2 hc)

end

/-! ## Extracting a uniquely occurring subtree permutes the infos -/

mutual

theorem infos_extract1_perm (su : Nat) :
    ∀ (n m : Node), UidsNodup1 n →
      (elems1 n).find? (fun z => z.nuid == su) = some m →
      List.Perm (infos1 n) (infosF (removeUid1 su n) ++ infos1 m)
  | .elem v t a c, m => by
    intro hN hf
    rcases uidsNodup1_elem.mp hN with ⟨hne, hc⟩
    rw [elems1] at hf
    by_cases hv : (v == su) = true
    · rw [List.find?_cons_of_pos _ (by rw [Node.nuid]; exact hv)] at hf
      injection hf with hf
      rw [removeUid1, if_pos hv, ← hf]
      rw [show infosF ([] : Doc) = [] by rw [infosF], List.nil_append]
    · rw [List.find?_cons_of_neg _ (by rw [Node.nuid]; simpa using hv)] at hf
      have hperm := infos_extractF_perm su c m hc (by rw [subtreeByUid]; exact hf)
      rw [removeUid1, if_neg hv,
        show infosF [Node.elem v t a (removeUidF su c)] =
          (⟨v, t, a⟩ : Info) :: infosF (removeUidF su c) by
            rw [infosF_singleton]; simp [infos1],
        show infos1 (Node.elem v t a c) = (⟨v, t, a⟩ : Info) :: infosF c by simp [infos1],
        List.cons_append]
      exact List.Perm.cons _ hperm
  | .text s, m => by
    intro hN hf
    rw [elems1] at hf
    simp at hf

theorem infos_extractF_perm (su : Nat) :
    ∀ (f : Doc) (m : Node), UidsNodup f → subtreeByUid su f = some m →
      List.Perm (infosF f) (infosF (removeUidF su f) ++ infos1 m)
  | [], m => by
    intro hN hf
    rw [subtreeByUid] at hf
    simp [elemsF] at hf
  | n :: ns, m => by
    intro hN hf
    rcases uidsNodup_cons.mp hN with ⟨h1, h2, h3⟩
    rw [subtreeByUid, elemsF_cons, List.find?_append] at hf
    rw [removeUidF, infosF_append, infosF_cons]
    cases h1f : (elems1 n).find? (fun z => z.nuid == su) with
    | some m1 =>
      rw [h1f] at hf
      have hm1 : m1 = m := by
        rw [show (some m1).or ((elemsF ns).find? (fun z => z.nuid == su)) = some m1 from rfl] at hf
        injection hf
      subst hm1
      have hm : m1 ∈ elems1 n := List.mem_of_find?_eq_some h1f
      have hmu := List.find?_some h1f
      have hnns : ∀ j ∈ infosF ns, j.uid ≠ su := by
        intro j hj hju
        have hmi : m1.info ∈ infos1 n := by
          rw [infos1_eq_map]
          exact List.mem_map.mpr ⟨m1, hm, rfl⟩
        exact h3 m1.info hmi j hj (by
          rw [Node.info_uid, hju]
          simpa using hmu)
      rw [removeUidF_of_not_contains su ns hnns]
      have hp := infos_extract1_perm su n m1 h1 h1f
      refine (hp.append_right (infosF ns)).trans ?_
      rw [List.append_assoc, List.append_assoc]
      exact List.Perm.append_left _ List.perm_append_comm
    | none =>
      rw [h1f] at hf
      rw [show (Option.none).or ((elemsF ns).find? (fun z => z.nuid == su)) =
        (elemsF ns).find? (fun z => z.nuid == su) from rfl] at hf
      have hnone := List.find?_eq_none.mp h1f
      have hni : ∀ i ∈ infos1 n, i.uid ≠ su := by
        intro i hi hiu
        rw [infos1_eq_map] at hi
        rcases List.mem_map.mp hi with ⟨z, hz, rfl⟩
        exact hnone z hz (by rw [beq_iff_eq, ← Node.info_uid]; exact hiu)
      rw [removeUid1_of_not_contains su n hni, infosF_singleton, List.append_assoc]
      exact List.Perm.append_left _
        (infos_extractF_perm su ns m h2 (by rw [subtreeByUid]; exact hf))

end

/-! ## Removing a freshly inserted subtree restores the document -/

mutual

theorem removeUid_insertAfter1 (u c : Nat) (x : Node) (hx : isElemWithUid u x = true) :
    ∀ n : Node, (∀ i ∈ infos1 n, i.uid ≠ u) →
      removeUid1 u (insertAfter1 c x n) = [n]
  | .elem v t a ch => by
    intro h
    have hv : v ≠ u := h ⟨v, t, a⟩ (by simp [infos1])
    rw [insertAfter1, removeUid1, if_neg (by simpa using hv),
      removeUid_insertAfterF u c x hx ch (fun i hi => h i (by
        rw [show infos1 (Node.elem v t a ch) = (⟨v, t, a⟩ : Info) :: infosF ch by simp [infos1]]
        exact List.mem_cons_of_mem _ hi))]
  | .text s => by
    intro h
    rw [insertAfter1, removeUid1]

theorem removeUid_insertAfterF (u c : Nat) (x : Node) (hx : isElemWithUid u x = true) :
    ∀ f : Doc, (∀ i ∈ infosF f, i.uid ≠ u) →
      removeUidF u (insertAfterF c x f) = f
  | [] => by
    intro h
    rw [insertAfterF, removeUidF]
  | n :: ns => by
    intro h
    rw [infosF_cons] at h
    have hxe : removeUid1 u x = [] := by
      cases x with
      | elem w tx ax cx =>
        rw [isElemWithUid] at hx
        rw [removeUid1, if_pos hx]
      | text s =>
        rw [isElemWithUid] at hx
        cases hx
    rw [insertAfterF]
    by_cases hn : isElemWithUid c n = true
    · rw [if_pos hn, removeUidF, removeUidF,
        removeUid1_of_not_contains u n (fun i hi => h i (List.mem_append_left _ hi)), hxe,
        removeUid_insertAfterF u c x hx ns (fun i hi => h i (List.mem_append_right _ hi))]
      simp
    · rw [if_neg hn, removeUidF,
        removeUid_insertAfter1 u c x hx n (fun i hi => h i (List.mem_append_left _ hi)),
        removeUid_insertAfterF u c x hx ns (fun i hi => h i (List.mem_append_right _ hi))]
      rfl

end

/-! ## The inserted subtree is an element of the result -/

mutual

theorem mem_insertAfter1 (u : Nat) (x : Node) (w : Nat) (hx : isElemWithUid w x = true) :
    ∀ n : Node, containsUid u [n] = true → isElemWithUid u n = false →
      x ∈ elems1 (insertAfter1 u x n)
  | .elem v t a c => by
    intro hc hv
    have hcc : containsUid u c = true := by
      rcases containsUid_iff.mp hc with ⟨i, hi, hiu⟩
      rw [infosF_singleton,
        show infos1 (Node.elem v t a c) = (⟨v, t, a⟩ : Info) :: infosF c by simp [infos1]] at hi
      rcases List.mem_cons.mp hi with rfl | hi
      · exfalso
        rw [isElemWithUid] at hv
        rw [show (⟨v, t, a⟩ : Info).uid = v from rfl] at hiu
        rw [hiu] at hv
        simp at hv
      · exact containsUid_iff.mpr ⟨i, hi, hiu⟩
    rw [insertAfter1, elems1]
    exact List.mem_cons_of_mem _ (mem_insertAfterF u x w hx c hcc)
  | .text s => by
    intro hc hv
    rw [containsUid, infosF_singleton] at hc
    simp [infos1] at hc

theorem mem_insertAfterF (u : Nat) (x : Node) (w : Nat) (hx : isElemWithUid w x = true) :
    ∀ f : Doc, containsUid u f = true → x ∈ elemsF (insertAfterF u x f)
  | [] => by
    intro hc
    rw [containsUid] at hc
    simp [infosF] at hc
  | n :: ns => by
    intro hc
    rw [insertAfterF]
    by_cases hn : isElemWithUid u n = true
    · rw [if_pos hn, elemsF_cons]
      refine List.mem_append_right _ ?_
      rw [elemsF_cons]
      refine List.mem_append_left _ ?_
      cases x with
      | elem wv tx ax cx =>
        rw [elems1]
        exact List.mem_cons_self _ _
      | text s =>
        rw [isElemWithUid] at hx
        cases hx
    · rw [if_neg hn]
      rw [containsUid_cons, Bool.or_eq_true] at hc
      rw [elemsF_cons]
      rcases hc with hc | hc
      · refine List.mem_append_left _ (mem_insertAfter1 u x w hx n hc ?_)
        cases hni : isElemWithUid u n with
        | false => rfl
        | true => exact absurd hni hn
      · exact List.mem_append_right _ (mem_insertAfterF u x w hx ns hc)

end

/-! ## Transport along info permutations -/

theorem containsUid_perm {u : Nat} {f g : Doc}
    (h : List.Perm (infosF f) (infosF g)) : containsUid u f = containsUid u g := by
  cases hg : containsUid u g with
  | true =>
    rcases containsUid_iff.mp hg with ⟨i, hi, hiu⟩
    exact containsUid_iff.mpr ⟨i, h.mem_iff.mpr hi, hiu⟩
  | false =>
    cases hf : containsUid u f with
    | false => rfl
    | true =>
      rcases containsUid_iff.mp hf with ⟨i, hi, hiu⟩
      have h2 : containsUid u g = true := containsUid_iff.mpr ⟨i, h.mem_iff.mp hi, hiu⟩
      rw [hg] at h2
      cases h2

theorem uidsNodup_perm {f g : Doc} (h : List.Perm (infosF f) (infosF g))
    (hnd : UidsNodup f) : UidsNodup g := by
  rw [UidsNodup] at hnd
  rw [UidsNodup]
  exact (List.Perm.nodup_iff (h.map Info.uid)).mp hnd

/-! ## The dedup/denylist decisions of the aside loop, as a pure
recursion over the collected list (the specification's reading: an aside
is removed when its id is denylisted or when an earlier aside introduced
the same id; otherwise it is kept and its id is recorded) -/

/-- The id key of an element as the loop's `aside.get('id')` sees it when
it does not raise: a string id gives the string, a missing id gives
`None`.  (A list-valued id makes `pyIdKey` raise instead; this function
is only related to the loop through `pyIdKey_ok_key`.) -/
def inKey (i : Info) : Option String :=
  match i.attr "id" with
  | some (AttrVal.vstr s) => some s
  | _ => none

def nodeKey (a : Node) : Option String := inKey a.info

/-- Whether a key is in the fixed denylist. -/
def denyKey (k : Option String) : Bool :=
  k.any (fun s => unwantedIds.contains s)

/-- The asides the loop keeps, walking the collected list with the set of
already seen ids. -/
def specKeptNodes : List Node → List (Option String) → List Node
  | [], _ => []
  | a :: rest, seen =>
    if denyKey (nodeKey a) then specKeptNodes rest seen
    else if seen.contains (nodeKey a) then specKeptNodes rest seen
    else a :: specKeptNodes rest (nodeKey a :: seen)

/-- The asides the loop removes: the denylisted ones and the later
duplicates. -/
def specRemovedNodes : List Node → List (Option String) → List Node
  | [], _ => []
  | a :: rest, seen =>
    if denyKey (nodeKey a) then a :: specRemovedNodes rest seen
    else if seen.contains (nodeKey a) then a :: specRemovedNodes rest seen
    else specRemovedNodes rest (nodeKey a :: seen)

theorem pyIdKey_ok_key {a : Node} {k : Option String}
    (h : pyIdKey (a.attr "id") = Except.ok k) : k = nodeKey a := by
  rw [Node.attr] at h
  cases hid : a.info.attr "id" with
  | none =>
    rw [hid, pyIdKey] at h
    injection h with h
    rw [nodeKey, inKey, hid, ← h]
  | some v =>
    cases v with
    | vstr s =>
      rw [hid, pyIdKey] at h
      injection h with h
      rw [nodeKey, inKey, hid, ← h]
    | vlist l =>
      rw [hid, pyIdKey] at h
      cases h

theorem contains_iff_mem {α : Type} [BEq α] [LawfulBEq α] {l : List α} {a : α} :
    l.contains a = true ↔ a ∈ l := by
  simp

theorem specNodes_cover :
    ∀ (as : List Node) (seen : List (Option String)) (a : Node), a ∈ as →
      a ∈ specKeptNodes as seen ∨ a ∈ specRemovedNodes as seen
  | [], seen, a => by
    intro h
    exact absurd h (List.not_mem_nil a)
  | a0 :: rest, seen, a => by
    intro h
    rw [specKeptNodes, specRemovedNodes]
    by_cases hd : denyKey (nodeKey a0) = true
    · rw [if_pos hd, if_pos hd]
      rcases List.mem_cons.mp h with rfl | h
      · exact Or.inr (List.mem_cons_self _ _)
      · rcases specNodes_cover rest seen a h with h2 | h2
        · exact Or.inl h2
        · exact Or.inr (List.mem_cons_of_mem _ h2)
    · rw [if_neg hd, if_neg hd]
      by_cases hs : seen.contains (nodeKey a0) = true
      · rw [if_pos hs, if_pos hs]
        rcases List.mem_cons.mp h with rfl | h
        · exact Or.inr (List.mem_cons_self _ _)
        · rcases specNodes_cover rest seen a h with h2 | h2
          · exact Or.inl h2
          · exact Or.inr (List.mem_cons_of_mem _ h2)
      · rw [if_neg hs, if_neg hs]
        rcases List.mem_cons.mp h with rfl | h
        · exact Or.inl (List.mem_cons_self _ _)
        · rcases specNodes_cover rest (nodeKey a0 :: seen) a h with h2 | h2
          · exact Or.inl (List.mem_cons_of_mem _ h2)
          · exact Or.inr h2

theorem specKeptNodes_sublist :
    ∀ (as : List Node) (seen : List (Option String)),
      List.Sublist (specKeptNodes as seen) as
  | [], seen => by
    rw [specKeptNodes]
  | a :: rest, seen => by
    rw [specKeptNodes]
    split
    · exact (specKeptNodes_sublist rest seen).cons _
    · split
      · exact (specKeptNodes_sublist rest seen).cons _
      · exact (specKeptNodes_sublist rest _).cons₂ _

theorem specKeptNodes_keys :
    ∀ (as : List Node) (seen : List (Option String)),
      ((specKeptNodes as seen).map nodeKey).Nodup ∧
      ∀ a ∈ specKeptNodes as seen, nodeKey a ∉ seen ∧ denyKey (nodeKey a) = false
  | [], seen => by
    rw [specKeptNodes]
    refine ⟨by simp, ?_⟩
    intro a ha
    exact absurd ha (List.not_mem_nil a)
  | a :: rest, seen => by
    rw [specKeptNodes]
    split
    · exact specKeptNodes_keys rest seen
    · next hdeny =>
      split
      · exact specKeptNodes_keys rest seen
      · next hseen =>
        rcases specKeptNodes_keys rest (nodeKey a :: seen) with ⟨hnd, hprop⟩
        constructor
        · rw [List.map_cons, List.nodup_cons]
          refine ⟨?_, hnd⟩
          intro hmem
          rcases List.mem_map.mp hmem with ⟨b, hb, hbk⟩
          exact (hprop b hb).1 (by rw [hbk]; exact List.mem_cons_self _ _)
        · intro b hb
          rcases List.mem_cons.mp hb with rfl | hb
          · refine ⟨fun hmem => hseen (contains_iff_mem.mpr hmem), ?_⟩
            cases hk : denyKey (nodeKey b) with
            | false => rfl
            | true => exact absurd hk hdeny
          · rcases hprop b hb with ⟨hb1, hb2⟩
            exact ⟨fun hmem => hb1 (List.mem_cons_of_mem _ hmem), hb2⟩

/-! ## What a successful aside loop does -/

theorem asideLoop_ok_pyIdKey :
    ∀ (as : List Node) (seen : List (Option String)) (unw dup : Nat) (f g : Doc)
      (u d : Nat), asideLoop as seen unw dup f = .ok (g, u, d) →
      ∀ a ∈ as, pyIdKey (a.attr "id") = .ok (nodeKey a)
  | [], seen, unw, dup, f, g, u, d => by
    intro h a ha
    exact absurd ha (List.not_mem_nil a)
  | a0 :: rest, seen, unw, dup, f, g, u, d => by
    intro h a ha
    rw [asideLoop] at h
    split at h
    · split at h
      · cases h
      · next idv hpy =>
        rcases List.mem_cons.mp ha with rfl | ha
        · rw [hpy, pyIdKey_ok_key hpy]
        · split at h
          · exact asideLoop_ok_pyIdKey rest seen (unw + 1) dup _ g u d h a ha
          · split at h
            · exact asideLoop_ok_pyIdKey rest seen unw (dup + 1) _ g u d h a ha
            · exact asideLoop_ok_pyIdKey rest (idv :: seen) unw dup f g u d h a ha
    · cases h

theorem asideLoop_ok_removed :
    ∀ (as : List Node) (seen : List (Option String)) (unw dup : Nat) (f g : Doc)
      (u d : Nat), asideLoop as seen unw dup f = .ok (g, u, d) →
      ∀ a ∈ specRemovedNodes as seen, containsUid a.nuid g = false
  | [], seen, unw, dup, f, g, u, d => by
    intro h a ha
    rw [specRemovedNodes] at ha
    exact absurd ha (List.not_mem_nil a)
  | a0 :: rest, seen, unw, dup, f, g, u, d => by
    intro h a ha
    rw [asideLoop] at h
    split at h
    · split at h
      · cases h
      · next idv hpy =>
        have hkey : idv = nodeKey a0 := pyIdKey_ok_key hpy
        subst hkey
        rw [specRemovedNodes, denyKey] at ha
        split at h
        · next hdeny =>
          rw [if_pos hdeny] at ha
          rcases List.mem_cons.mp ha with rfl | ha
          · exact not_containsUid_of_sublist
              (asideLoop_ok_sublist rest seen (unw + 1) dup _ g u d h)
              (containsUid_removeUidF_self a.nuid f)
          · exact asideLoop_ok_removed rest seen (unw + 1) dup _ g u d h a ha
        · next hdeny =>
          rw [if_neg hdeny] at ha
          split at h
          · next hseen =>
            rw [if_pos hseen] at ha
            rcases List.mem_cons.mp ha with rfl | ha
            · exact not_containsUid_of_sublist
                (asideLoop_ok_sublist rest seen unw (dup + 1) _ g u d h)
                (containsUid_removeUidF_self a.nuid f)
            · exact asideLoop_ok_removed rest seen unw (dup + 1) _ g u d h a ha
          · next hseen =>
            rw [if_neg hseen] at ha
            exact asideLoop_ok_removed rest (nodeKey a0 :: seen) unw dup f g u d h a ha
    · cases h

theorem asideLoop_ok_counts :
    ∀ (as : List Node) (seen : List (Option String)) (unw dup : Nat) (f g : Doc)
      (u d : Nat), asideLoop as seen unw dup f = .ok (g, u, d) →
      asideCountLoop as seen unw dup = .ok (u, d)
  | [], seen, unw, dup, f, g, u, d => by
    intro h
    rw [asideLoop] at h
    injection h with h
    injection h with h1 h2
    injection h2 with hu hd
    rw [asideCountLoop, hu, hd]
  | a0 :: rest, seen, unw, dup, f, g, u, d => by
    intro h
    rw [asideLoop] at h
    rw [asideCountLoop]
    split at h
    · split at h
      · next e hpy =>
        cases h
      · next idv hpy =>
        split at h
        · next hdeny =>
          rw [if_pos hdeny]
          exact asideLoop_ok_counts rest seen (unw + 1) dup _ g u d h
        · next hdeny =>
          rw [if_neg hdeny]
          split at h
          · next hseen =>
            rw [if_pos hseen]
            exact asideLoop_ok_counts rest seen unw (dup + 1) _ g u d h
          · next hseen =>
            rw [if_neg hseen]
            exact asideLoop_ok_counts rest (idv :: seen) unw dup f g u d h
    · cases h

theorem asideLoop_ok_subInfos_sublist (w : Nat) :
    ∀ (as : List Node) (seen : List (Option String)) (unw dup : Nat) (f g : Doc)
      (u d : Nat), asideLoop as seen unw dup f = .ok (g, u, d) →
      List.Sublist (subInfosF w g) (subInfosF w f)
  | [], seen, unw, dup, f, g, u, d => by
    intro h
    rw [asideLoop] at h
    injection h with h
    injection h with h1 h2
    rw [← h1]
  | a0 :: rest, seen, unw, dup, f, g, u, d => by
    intro h
    rw [asideLoop] at h
    split at h
    · split at h
      · cases h
      · split at h
        · exact (asideLoop_ok_subInfos_sublist w rest _ _ _ _ g _ _ h).trans
            (subInfos_removeUidF_sublist w a0.nuid f)
        · split at h
          · exact (asideLoop_ok_subInfos_sublist w rest _ _ _ _ g _ _ h).trans
              (subInfos_removeUidF_sublist w a0.nuid f)
          · exact asideLoop_ok_subInfos_sublist w rest _ _ _ _ g _ _ h
    · cases h

theorem asideLoop_ok_keeps :
    ∀ (as : List Node) (seen : List (Option String)) (unw dup : Nat) (f g : Doc)
      (u d : Nat), asideLoop as seen unw dup f = .ok (g, u, d) →
      ∀ j : Info, j ∈ infosF f →
      (∀ a ∈ as, j.uid ≠ a.nuid ∧ j ∉ subInfosF a.nuid f) →
      j ∈ infosF g
  | [], seen, unw, dup, f, g, u, d => by
    intro h j hj _
    rw [asideLoop] at h
    injection h with h
    injection h with h1 h2
    rw [← h1]
    exact hj
  | a0 :: rest, seen, unw, dup, f, g, u, d => by
    intro h j hj hcond
    rw [asideLoop] at h
    split at h
    · split at h
      · cases h
      · next idv hpy =>
        have hhead := hcond a0 (List.mem_cons_self _ _)
        split at h
        · refine asideLoop_ok_keeps rest seen (unw + 1) dup _ g u d h j
            (survives_removal hj hhead.1 hhead.2) ?_
          intro b hb
          refine ⟨(hcond b (List.mem_cons_of_mem _ hb)).1, ?_⟩
          intro hjb
          exact (hcond b (List.mem_cons_of_mem _ hb)).2
            ((subInfos_removeUidF_sublist b.nuid a0.nuid f).subset hjb)
        · split at h
          · refine asideLoop_ok_keeps rest seen unw (dup + 1) _ g u d h j
              (survives_removal hj hhead.1 hhead.2) ?_
            intro b hb
            refine ⟨(hcond b (List.mem_cons_of_mem _ hb)).1, ?_⟩
            intro hjb
            exact (hcond b (List.mem_cons_of_mem _ hb)).2
              ((subInfos_removeUidF_sublist b.nuid a0.nuid f).subset hjb)
          · exact asideLoop_ok_keeps rest (idv :: seen) unw dup f g u d h j hj
              (fun b hb => hcond b (List.mem_cons_of_mem _ hb))
    · cases h

theorem asideLoop_ok_kept {f0 : Doc} (hnd : UidsNodup f0) :
    ∀ (as : List Node) (seen : List (Option String)) (unw dup : Nat) (f g : Doc)
      (u d : Nat), asideLoop as seen unw dup f = .ok (g, u, d) →
      List.Sublist (infosF f) (infosF f0) →
      (∀ a ∈ as, a.info ∈ infosF f0) →
      List.Pairwise (fun x y => x.nuid ≠ y.nuid ∧ x.info ∉ subInfosF y.nuid f) as →
      ∀ a ∈ specKeptNodes as seen, a.info ∈ infosF g
  | [], seen, unw, dup, f, g, u, d => by
    intro h hsub hmem hpw a ha
    rw [specKeptNodes] at ha
    exact absurd ha (List.not_mem_nil a)
  | a0 :: rest, seen, unw, dup, f, g, u, d => by
    intro h hsub hmem hpw a ha
    rw [asideLoop] at h
    split at h
    · next hcont =>
      split at h
      · cases h
      · next idv hpy =>
        have hkey : idv = nodeKey a0 := pyIdKey_ok_key hpy
        subst hkey
        rw [specKeptNodes, denyKey] at ha
        rcases List.pairwise_cons.mp hpw with ⟨hhead, htail⟩
        split at h
        · next hdeny =>
          rw [if_pos hdeny] at ha
          exact asideLoop_ok_kept hnd rest seen (unw + 1) dup _ g u d h
            ((infos_removeUidF_sublist a0.nuid f).trans hsub)
            (fun b hb => hmem b (List.mem_cons_of_mem _ hb))
            (htail.imp (fun hxy => ⟨hxy.1,
              fun hm2 => hxy.2 ((subInfos_removeUidF_sublist _ _ f).subset hm2)⟩))
            a ha
        · next hdeny =>
          rw [if_neg hdeny] at ha
          split at h
          · next hseen =>
            rw [if_pos hseen] at ha
            exact asideLoop_ok_kept hnd rest seen unw (dup + 1) _ g u d h
              ((infos_removeUidF_sublist a0.nuid f).trans hsub)
              (fun b hb => hmem b (List.mem_cons_of_mem _ hb))
              (htail.imp (fun hxy => ⟨hxy.1,
                fun hm2 => hxy.2 ((subInfos_removeUidF_sublist _ _ f).subset hm2)⟩))
              a ha
          · next hseen =>
            rw [if_neg hseen] at ha
            rcases List.mem_cons.mp ha with rfl | ha
            · have hai : a.info ∈ infosF f := by
                rcases containsUid_iff.mp hcont with ⟨j, hjf, hju⟩
                have hj0 : j ∈ infosF f0 := hsub.subset hjf
                have ha0 : a.info ∈ infosF f0 := hmem a (List.mem_cons_self _ _)
                have hje : j = a.info :=
                  infos_uid_inj hnd j hj0 a.info ha0 (by rw [hju, Node.info_uid])
                rw [← hje]
                exact hjf
              refine asideLoop_ok_keeps rest (nodeKey a :: seen) unw dup f g u d h
                a.info hai ?_
              intro b hb
              refine ⟨?_, (hhead b hb).2⟩
              rw [Node.info_uid]
              exact (hhead b hb).1
            · exact asideLoop_ok_kept hnd rest (nodeKey a0 :: seen) unw dup f g u d h hsub
                (fun b hb => hmem b (List.mem_cons_of_mem _ hb)) htail a ha
    · cases h

theorem asideLoop_noop :
    ∀ (as : List Node) (seen : List (Option String)) (unw dup : Nat) (f : Doc),
      (∀ a ∈ as, containsUid a.nuid f = true) →
      (∀ a ∈ as, pyIdKey (a.attr "id") = .ok (nodeKey a)) →
      (∀ a ∈ as, denyKey (nodeKey a) = false) →
      (as.map nodeKey).Nodup →
      (∀ a ∈ as, nodeKey a ∉ seen) →
      asideLoop as seen unw dup f = .ok (f, unw, dup)
  | [], seen, unw, dup, f => by
    intro _ _ _ _ _
    rw [asideLoop]
  | a0 :: rest, seen, unw, dup, f => by
    intro hcont hpy hdeny hnd hseen
    rw [asideLoop, if_pos (hcont a0 (List.mem_cons_self _ _))]
    simp only [hpy a0 (List.mem_cons_self _ _)]
    have hd0 : ((nodeKey a0).any fun s => unwantedIds.contains s) = false := by
      have h2 := hdeny a0 (List.mem_cons_self _ _)
      rw [denyKey] at h2
      exact h2
    rw [if_neg (by rw [hd0]; exact Bool.false_ne_true)]
    have hs0 : ¬ (seen.contains (nodeKey a0) = true) := by
      intro hx
      exact hseen a0 (List.mem_cons_self _ _) (contains_iff_mem.mp hx)
    rw [if_neg hs0]
    rw [List.map_cons, List.nodup_cons] at hnd
    refine asideLoop_noop rest (nodeKey a0 :: seen) unw dup f
      (fun b hb => hcont b (List.mem_cons_of_mem _ hb))
      (fun b hb => hpy b (List.mem_cons_of_mem _ hb))
      (fun b hb => hdeny b (List.mem_cons_of_mem _ hb))
      hnd.2 ?_
    intro b hb hmem2
    rcases List.mem_cons.mp hmem2 with heq | hmem2
    · exact hnd.1 (by rw [← heq]; exact List.mem_map.mpr ⟨b, hb, rfl⟩)
    · exact hseen b (List.mem_cons_of_mem _ hb) hmem2

/-! ## Claim C2 -/

/-- The document of the C2 counterexample: a sidebar holding a sharedaddy
div that wraps a denylisted aside. -/
def docC2x : Doc :=
  [Node.elem 1 "div" [("id", AttrVal.vstr "content")] [Node.text "c"],
   Node.elem 2 "div" [("id", AttrVal.vstr "sidebar")] [
     Node.elem 3 "div" [("class", AttrVal.vstr "sharedaddy share")] [
       Node.elem 4 "aside" [("id", AttrVal.vstr "search-2")] [Node.text "x"]]]]

/-- C2 counterexample: the transformation succeeds on this document, yet
the preview announces one unwanted aside (it counts on the pristine tree,
where aside search-2 sits below the sidebar) while the transformation's
aside pass removes none (the enclosing sharedaddy div, removed first,
already destroyed the aside), so the preview's count differs from what
the corresponding pass actually removes. -/
theorem c2_counterexample :
    previewCounts docC2x = Except.ok ⟨0, 0, 1, 1, 0⟩ ∧
    moveCore docC2x = Except.ok
      ([Node.elem 1 "div" [("id", AttrVal.vstr "content")] [Node.text "c"],
        Node.elem 2 "div" [("id", AttrVal.vstr "sidebar")] []], ⟨0, 0, 1, 0, 0⟩) ∧
    (⟨0, 0, 1, 1, 0⟩ : Counts) ≠ ⟨0, 0, 1, 0, 0⟩ := by
  refine ⟨by decide, by decide, by decide⟩

/-- C2 amended: on a document with distinct identities that contains none
of the script, iframe and sharedaddy-div targets (so that the earlier
removal passes cannot interfere with the aside counting), a successful
transformation computes exactly the counters of the read-only preview
pass.  In general the two disagree, because the preview counts every
category on the pristine tree while the transformation counts the aside
categories only after the script, iframe and div removals have run. -/
theorem c2_preview_matches_transform (doc out : Doc) (cs : Counts)
    (hnd : UidsNodup doc)
    (hs : scriptMatches doc = [])
    (hi : findAll isLikesIframe doc = [])
    (hd : divMatches doc = [])
    (hok : moveCore doc = Except.ok (out, cs)) :
    previewCounts doc = Except.ok cs := by
  rcases moveCore_ok_inv hok with
    ⟨contentN, sidebarN, f1, f3, f4, unw, dup, hcf, hsf, htc, hts, hf1, hf3, hf4, hms, hcs⟩
  rw [scriptStage, hs] at hf1
  rw [show (([] : List Node).map Node.nuid) = [] from rfl, decomposeAll] at hf1
  injection hf1 with hf1
  subst hf1
  have hif : iframeStage doc = (doc, 0) := by
    rw [iframeStage, findFirst, hi]
    rfl
  rw [hif] at hf3 hcs
  rw [show ((doc, 0).1 : Doc) = doc from rfl] at hf3 hcs
  rw [show ((doc, 0).2 : Nat) = 0 from rfl] at hcs
  rw [divStage, hd] at hf3
  rw [show (([] : List Node).map Node.nuid) = [] from rfl, decomposeAll] at hf3
  injection hf3 with hf3
  subst hf3
  have hsmem := findFirst_mem hsf
  have hsub : subtreeByUid sidebarN.nuid doc = some sidebarN :=
    subtreeByUid_unique hnd hsmem.1 rfl
  simp only [asideStage, hsub] at hf4
  have hcounts := asideLoop_ok_counts _ _ _ _ _ _ _ _ hf4
  simp only [previewCounts, hsf, hts, if_true, hcounts]
  rw [hcs]
  have hifc : (if truthy (findFirst isLikesIframe doc) then 1 else 0) = 0 := by
    rw [findFirst, hi]
    rfl
  rw [hifc]

/-- The document of the C2 witness: no script/iframe/div targets, one
denylisted aside and one duplicate-id aside below the sidebar. -/
def docC2w : Doc :=
  [Node.elem 1 "div" [("id", AttrVal.vstr "content")] [Node.text "c"],
   Node.elem 2 "div" [("id", AttrVal.vstr "sidebar")] [
     Node.elem 3 "aside" [("id", AttrVal.vstr "text-1")] [Node.text "x"],
     Node.elem 4 "aside" [("id", AttrVal.vstr "meta-2")] [Node.text "y"],
     Node.elem 5 "aside" [("id", AttrVal.vstr "text-1")] [Node.text "z"]]]

/-- The output of the transformation on `docC2w`. -/
def docC2wOut : Doc :=
  [Node.elem 1 "div" [("id", AttrVal.vstr "content")] [Node.text "c"],
   Node.elem 2 "div" [("id", AttrVal.vstr "sidebar")] [
     Node.elem 3 "aside" [("id", AttrVal.vstr "text-1")] [Node.text "x"]]]

theorem c2_witness : previewCounts docC2w = Except.ok ⟨0, 0, 0, 1, 1⟩ :=
  c2_preview_matches_transform docC2w docC2wOut ⟨0, 0, 0, 1, 1⟩
    (by decide) (by decide) (by decide) (by decide) (by decide)

/-! ## Claim C5 -/

/-- The document of the C5 counterexample: the sidebar's only aside (a
unique, non-denylisted id) sits inside a sharedaddy div. -/
def docC5x : Doc :=
  [Node.elem 1 "div" [("id", AttrVal.vstr "content")] [Node.text "c"],
   Node.elem 2 "div" [("id", AttrVal.vstr "sidebar")] [
     Node.elem 3 "div" [("class", AttrVal.vstr "sharedaddy share")] [
       Node.elem 4 "aside" [("id", AttrVal.vstr "text-1")] [Node.text "x"]]]]

/-- C5 counterexample: aside 4 is the first (and only) occurrence of its
id among the sidebar's asides and its id is not denylisted, so the claim
says it survives; yet the transformation succeeds and the output does not
contain it (the sharedaddy-div pass destroyed it before the aside pass
ran), and the aside pass itself removed nothing. -/
theorem c5_counterexample :
    findAllIn (Node.elem 2 "div" [("id", AttrVal.vstr "sidebar")] [
      Node.elem 3 "div" [("class", AttrVal.vstr "sharedaddy share")] [
        Node.elem 4 "aside" [("id", AttrVal.vstr "text-1")] [Node.text "x"]]])
      isAsideWithId =
      [Node.elem 4 "aside" [("id", AttrVal.vstr "text-1")] [Node.text "x"]] ∧
    denyKey (nodeKey (Node.elem 4 "aside" [("id", AttrVal.vstr "text-1")] [Node.text "x"])) =
      false ∧
    moveCore docC5x = Except.ok
      ([Node.elem 1 "div" [("id", AttrVal.vstr "content")] [Node.text "c"],
        Node.elem 2 "div" [("id", AttrVal.vstr "sidebar")] []], ⟨0, 0, 1, 0, 0⟩) ∧
    containsUid 4
      [Node.elem 1 "div" [("id", AttrVal.vstr "content")] [Node.text "c"],
       Node.elem 2 "div" [("id", AttrVal.vstr "sidebar")] []] = false := by
  refine ⟨by decide, by decide, by decide, by decide⟩

/-- C5 amended: on a document with distinct identities, none of the
script/iframe/div targets (so no earlier pass interferes), whose chosen
content node is not the sidebar node nor inside it, a successful
transformation treats the asides below the sidebar exactly as the
dedup/denylist walk prescribes: a collected aside is present in the
output precisely when it is kept (first occurrence of its id, id not
denylisted), and an aside outside the sidebar subtree is never removed. -/
theorem c5_aside_dedup (doc out : Doc) (cs : Counts) (contentN sidebarN : Node)
    (hnd : UidsNodup doc)
    (hcf : findFirst (hasId "content") doc = some contentN)
    (hsf : findFirst (hasId "sidebar") doc = some sidebarN)
    (hne : contentN ≠ sidebarN)
    (hsc : containsUid contentN.nuid sidebarN.childrenOf = false)
    (hs : scriptMatches doc = [])
    (hi : findAll isLikesIframe doc = [])
    (hd : divMatches doc = [])
    (hok : moveCore doc = Except.ok (out, cs)) :
    (∀ a ∈ findAllIn sidebarN isAsideWithId,
      (containsUid a.nuid out = true ↔
        a ∈ specKeptNodes (findAllIn sidebarN isAsideWithId) [])) ∧
    (∀ e ∈ elemsF doc, isAsideWithId e.info = true →
      containsUid e.nuid sidebarN.childrenOf = false →
      containsUid e.nuid out = true) := by
  rcases moveCore_ok_inv hok with
    ⟨contentN2, sidebarN2, f1, f3, f4, unw, dup, hcf2, hsf2, htc, hts, hf1, hf3, hf4, hms, hcs⟩
  rw [hcf] at hcf2
  injection hcf2 with hcf2
  rw [hsf] at hsf2
  injection hsf2 with hsf2
  subst hcf2
  subst hsf2
  rw [scriptStage, hs] at hf1
  rw [show (([] : List Node).map Node.nuid) = [] from rfl, decomposeAll] at hf1
  injection hf1 with hf1
  subst hf1
  have hif : iframeStage doc = (doc, 0) := by
    rw [iframeStage, findFirst, hi]
    rfl
  rw [hif] at hf3
  rw [show ((doc, 0).1 : Doc) = doc from rfl] at hf3
  rw [divStage, hd] at hf3
  rw [show (([] : List Node).map Node.nuid) = [] from rfl, decomposeAll] at hf3
  injection hf3 with hf3
  subst hf3
  have hsmemN : sidebarN ∈ elemsF doc := (findFirst_mem hsf).1
  have hcmemN : contentN ∈ elemsF doc := (findFirst_mem hcf).1
  have hsub : subtreeByUid sidebarN.nuid doc = some sidebarN :=
    subtreeByUid_unique hnd hsmemN rfl
  simp only [asideStage, hsub] at hf4
  have hamem : ∀ a ∈ findAllIn sidebarN isAsideWithId, a ∈ elemsF doc := by
    intro a ha
    rw [findAllIn] at ha
    have h2 : a ∈ elemsF sidebarN.childrenOf := (mem_findAll.mp ha).1
    refine (elems1_sublist_of_memF doc sidebarN hsmemN).subset ?_
    rcases mem_elemsF_isElem doc sidebarN hsmemN with ⟨v, t, w, c, hsE⟩
    rw [hsE, elems1]
    rw [hsE, Node.childrenOf] at h2
    exact List.mem_cons_of_mem _ h2
  have haminfo : ∀ a ∈ findAllIn sidebarN isAsideWithId, a.info ∈ infosF doc := by
    intro a ha
    rw [infosF_eq_map]
    exact List.mem_map.mpr ⟨a, hamem a ha, rfl⟩
  have hsubl : List.Sublist (findAllIn sidebarN isAsideWithId) (elemsF doc) := by
    rw [findAllIn, findAll]
    refine (List.filter_sublist _).trans ?_
    rcases mem_elemsF_isElem doc sidebarN hsmemN with ⟨v, t, w, c, hsE⟩
    have h1 : List.Sublist (elems1 sidebarN) (elemsF doc) :=
      elems1_sublist_of_memF doc sidebarN hsmemN
    rw [hsE, elems1] at h1
    rw [hsE, Node.childrenOf]
    exact (List.sublist_cons_self _ _).trans h1
  have hpw : List.Pairwise (fun x y => x.nuid ≠ y.nuid ∧ x.info ∉ subInfosF y.nuid doc)
      (findAllIn sidebarN isAsideWithId) := by
    have hdocpw := (pairwise_nuid_ne hnd).and (pairwise_not_insideF doc hnd)
    refine List.Pairwise.imp_of_mem ?_ (hdocpw.sublist hsubl)
    intro x y hx hy hxy
    refine ⟨hxy.1, ?_⟩
    intro hmem
    have hyd : y ∈ elemsF doc := hsubl.subset hy
    exact hxy.2 (mem_subInfos_childrenOf hnd hyd hmem)
  have hkept : ∀ a ∈ specKeptNodes (findAllIn sidebarN isAsideWithId) [],
      a.info ∈ infosF f4 :=
    asideLoop_ok_kept hnd _ _ _ _ _ _ _ _ hf4 (List.Sublist.refl _) haminfo hpw
  have hremoved := asideLoop_ok_removed _ _ _ _ _ _ _ _ hf4
  have hsubf4 : List.Sublist (infosF f4) (infosF doc) :=
    asideLoop_ok_sublist _ _ _ _ _ _ _ _ hf4
  have hndf4 : UidsNodup f4 := uidsNodup_of_sublist hsubf4 hnd
  have hdesc : Descends f4 doc := asideLoop_ok_descends _ _ _ _ _ _ _ _ hf4
  rw [moveStage] at hms
  split at hms
  · cases hms
  · next sidebarNow hsn =>
    rcases subtreeByUid_eq_some hsn with ⟨hmem4, hsnu⟩
    have hnotin : containsUid contentN.nuid [sidebarNow] = false := by
      rcases hdesc _ hmem4 with ⟨m0, hm0, hinfo, hsub2, _⟩
      have hm0uid : m0.nuid = sidebarN.nuid := by
        rw [← Node.info_uid, hinfo, Node.info_uid]
        exact hsnu
      have hm0s : m0 = sidebarN := uid_inj_of_nodup hnd m0 hm0 sidebarN hsmemN hm0uid
      subst hm0s
      rw [containsUid_eq_false]
      intro i hi2 hiu
      rw [infosF_singleton] at hi2
      have hiS : i ∈ infos1 m0 := hsub2.subset hi2
      rcases mem_elemsF_isElem doc m0 hm0 with ⟨v2, t2, a2, c2, hm0e⟩
      rw [hm0e, show infos1 (Node.elem v2 t2 a2 c2) =
          (⟨v2, t2, a2⟩ : Info) :: infosF c2 by simp [infos1]] at hiS
      rcases List.mem_cons.mp hiS with rfl | hiS
      · apply hne
        apply uid_inj_of_nodup hnd contentN hcmemN m0 hm0
        have hm0nuid : m0.nuid = v2 := by rw [hm0e]; simp [Node.nuid]
        rw [hm0nuid, ← hiu]
      · have hcontra : containsUid contentN.nuid m0.childrenOf = true := by
          rw [hm0e, Node.childrenOf]
          exact containsUid_iff.mpr ⟨i, hiS, hiu⟩
        rw [hsc] at hcontra
        cases hcontra
    split at hms
    · next hcont =>
      injection hms with hms
      subst hms
      have hpermE : List.Perm (infosF f4)
          (infosF (removeUidF sidebarN.nuid f4) ++ infos1 sidebarNow) :=
        infos_extractF_perm sidebarN.nuid f4 sidebarNow hndf4 hsn
      have hndg : UidsNodup (removeUidF sidebarN.nuid f4) :=
        uidsNodup_of_sublist (infos_removeUidF_sublist _ _) hndf4
      have hpermI := infos_insertAfterF_perm contentN.nuid sidebarNow
        (removeUidF sidebarN.nuid f4) hndg hcont
      have hperm := hpermI.trans hpermE.symm
      have hcu : ∀ u : Nat,
          containsUid u (insertAfterF contentN.nuid sidebarNow
            (removeUidF sidebarN.nuid f4)) = containsUid u f4 :=
        fun u => containsUid_perm hperm
      constructor
      · intro a ha
        constructor
        · intro hin
          rcases specNodes_cover _ [] a ha with hk | hr
          · exact hk
          · exfalso
            have h2 := hremoved a hr
            rw [hcu a.nuid, h2] at hin
            cases hin
        · intro hk
          rw [hcu a.nuid]
          exact containsUid_iff.mpr ⟨a.info, hkept a hk, Node.info_uid a⟩
      · intro e he haside hout
        have hef4 : e.info ∈ infosF f4 := by
          refine asideLoop_ok_keeps _ _ _ _ _ _ _ _ hf4 e.info
            (by rw [infosF_eq_map]; exact List.mem_map.mpr ⟨e, he, rfl⟩) ?_
          intro b hb
          have hbmem : b ∈ elemsF sidebarN.childrenOf := by
            rw [findAllIn] at hb
            exact (mem_findAll.mp hb).1
          have hbinfo : b.info ∈ infosF sidebarN.childrenOf := by
            rw [infosF_eq_map]
            exact List.mem_map.mpr ⟨b, hbmem, rfl⟩
          constructor
          · intro heq
            have h2 : containsUid e.nuid sidebarN.childrenOf = true :=
              containsUid_iff.mpr ⟨b.info, hbinfo,
                by rw [Node.info_uid, ← heq, Node.info_uid]⟩
            rw [hout] at h2
            cases h2
          · intro hjb
            have hbd : b ∈ elemsF doc := hamem b hb
            have h2 : e.info ∈ infosF b.childrenOf := mem_subInfos_childrenOf hnd hbd hjb
            have h3 : e.info ∈ infos1 b := mem_infos1_of_childrenOf b _ h2
            have h4 : e.info ∈ infosF sidebarN.childrenOf :=
              (infos1_sublist_of_memF _ b hbmem).subset h3
            have h5 : containsUid e.nuid sidebarN.childrenOf = true :=
              containsUid_iff.mpr ⟨e.info, h4, Node.info_uid e⟩
            rw [hout] at h5
            cases h5
        rw [hcu e.nuid]
        exact containsUid_iff.mpr ⟨e.info, hef4, Node.info_uid e⟩
    · next hncont =>
      split at hms
      · next hcont2 =>
        rw [hnotin] at hcont2
        cases hcont2
      · cases hms

/-- The document of the C5 witness: a denylisted aside and a duplicate-id
aside below the sidebar, and one aside outside the sidebar subtree. -/
def docC5w : Doc :=
  [Node.elem 1 "div" [("id", AttrVal.vstr "content")] [Node.text "c"],
   Node.elem 2 "div" [("id", AttrVal.vstr "sidebar")] [
     Node.elem 3 "aside" [("id", AttrVal.vstr "text-1")] [Node.text "x"],
     Node.elem 4 "aside" [("id", AttrVal.vstr "meta-2")] [Node.text "y"],
     Node.elem 5 "aside" [("id", AttrVal.vstr "text-1")] [Node.text "z"]],
   Node.elem 6 "aside" [("id", AttrVal.vstr "outside")] [Node.text "o"]]

/-- The sidebar node of `docC5w`. -/
def sidebarC5w : Node :=
  Node.elem 2 "div" [("id", AttrVal.vstr "sidebar")] [
    Node.elem 3 "aside" [("id", AttrVal.vstr "text-1")] [Node.text "x"],
    Node.elem 4 "aside" [("id", AttrVal.vstr "meta-2")] [Node.text "y"],
    Node.elem 5 "aside" [("id", AttrVal.vstr "text-1")] [Node.text "z"]]

/-- The output of the transformation on `docC5w`. -/
def docC5wOut : Doc :=
  [Node.elem 1 "div" [("id", AttrVal.vstr "content")] [Node.text "c"],
   Node.elem 2 "div" [("id", AttrVal.vstr "sidebar")] [
     Node.elem 3 "aside" [("id", AttrVal.vstr "text-1")] [Node.text "x"]],
   Node.elem 6 "aside" [("id", AttrVal.vstr "outside")] [Node.text "o"]]

theorem c5_witness :
    (∀ a ∈ findAllIn sidebarC5w isAsideWithId,
      (containsUid a.nuid docC5wOut = true ↔
        a ∈ specKeptNodes (findAllIn sidebarC5w isAsideWithId) [])) ∧
    (∀ e ∈ elemsF docC5w, isAsideWithId e.info = true →
      containsUid e.nuid sidebarC5w.childrenOf = false →
      containsUid e.nuid docC5wOut = true) :=
  c5_aside_dedup docC5w docC5wOut ⟨0, 0, 0, 1, 1⟩
    (Node.elem 1 "div" [("id", AttrVal.vstr "content")] [Node.text "c"]) sidebarC5w
    (by decide) (by decide) (by decide) (by decide) (by decide) (by decide) (by decide)
    (by decide) (by decide)

/-! ## Claim C4 -/

theorem scriptMatches_eq_nil {f : Doc}
    (h : ∀ i ∈ infosF f, isUnwantedScript i = false) : scriptMatches f = [] := by
  have h4 : ∀ i ∈ infosF f, isJetpackScript i = false ∧ isSharingScript i = false ∧
      isCommentReplyScript i = false ∧ isSpeculationScript i = false := by
    intro i hi
    have h2 := h i hi
    rw [isUnwantedScript, Bool.or_eq_false_iff, Bool.or_eq_false_iff,
      Bool.or_eq_false_iff] at h2
    exact ⟨h2.1.1.1, h2.1.1.2, h2.1.2, h2.2⟩
  rw [scriptMatches,
    findAll_eq_nil.mpr (fun i hi => (h4 i hi).1),
    findAll_eq_nil.mpr (fun i hi => (h4 i hi).2.1),
    findAll_eq_nil.mpr (fun i hi => (h4 i hi).2.2.1),
    findAll_eq_nil.mpr (fun i hi => (h4 i hi).2.2.2)]
  rfl

/-- The document of the C4 counterexample: two elements carry id sidebar,
so the two runs move different nodes. -/
def docC4x : Doc :=
  [Node.elem 1 "div" [("id", AttrVal.vstr "sidebar")] [Node.text "a"],
   Node.elem 2 "div" [("id", AttrVal.vstr "sidebar")] [Node.text "b"],
   Node.elem 3 "div" [("id", AttrVal.vstr "content")] [Node.text "c"]]

/-- The first output on `docC4x`. -/
def docC4xOut1 : Doc :=
  [Node.elem 2 "div" [("id", AttrVal.vstr "sidebar")] [Node.text "b"],
   Node.elem 3 "div" [("id", AttrVal.vstr "content")] [Node.text "c"],
   Node.elem 1 "div" [("id", AttrVal.vstr "sidebar")] [Node.text "a"]]

/-- The second output. -/
def docC4xOut2 : Doc :=
  [Node.elem 3 "div" [("id", AttrVal.vstr "content")] [Node.text "c"],
   Node.elem 2 "div" [("id", AttrVal.vstr "sidebar")] [Node.text "b"],
   Node.elem 1 "div" [("id", AttrVal.vstr "sidebar")] [Node.text "a"]]

/-- C4 counterexample: both runs succeed, yet the second run rearranges
the document again (it finds the other sidebar-id element first), so the
transformation is not idempotent. -/
theorem c4_counterexample :
    move_sidebar_after_content docC4x = Except.ok docC4xOut1 ∧
    move_sidebar_after_content docC4xOut1 = Except.ok docC4xOut2 ∧
    docC4xOut2 ≠ docC4xOut1 := by
  refine ⟨by decide, by decide, by decide⟩

/-- C4 amended: the transformation is idempotent under the conditions the
spec's idempotence story silently assumes — distinct identities, a unique
content id and a unique sidebar id, and no likes-master iframe (the
iframe pass only ever removes the first one, so a second iframe makes the
second run remove again) — whenever the second run succeeds at all: the
second run then finds no script, iframe, div or aside to remove, extracts
the already moved sidebar and reinserts it in the same place. -/
theorem c4_idempotent (doc out1 out2 : Doc) (cs1 : Counts)
    (hnd : UidsNodup doc)
    (huc : ∀ i ∈ infosF doc, ∀ j ∈ infosF doc,
      hasId "content" i = true → hasId "content" j = true → i = j)
    (hus : ∀ i ∈ infosF doc, ∀ j ∈ infosF doc,
      hasId "sidebar" i = true → hasId "sidebar" j = true → i = j)
    (hi : findAll isLikesIframe doc = [])
    (hok1 : moveCore doc = Except.ok (out1, cs1))
    (hok2 : move_sidebar_after_content out1 = Except.ok out2) :
    out2 = out1 := by
  rcases moveCore_ok_inv hok1 with
    ⟨contentN, sidebarN, f1, f3, f4, unw, dup, hcf, hsf, htc, hts, hf1, hf3, hf4, hms, hcs⟩
  have hsmemN : sidebarN ∈ elemsF doc := (findFirst_mem hsf).1
  have hcmemN : contentN ∈ elemsF doc := (findFirst_mem hcf).1
  have hsNpred : hasId "sidebar" sidebarN.info = true := (findFirst_mem hsf).2
  have hcNpred : hasId "content" contentN.info = true := (findFirst_mem hcf).2
  have hsNinfo : sidebarN.info ∈ infosF doc := by
    rw [infosF_eq_map]
    exact List.mem_map.mpr ⟨sidebarN, hsmemN, rfl⟩
  have hcNinfo : contentN.info ∈ infosF doc := by
    rw [infosF_eq_map]
    exact List.mem_map.mpr ⟨contentN, hcmemN, rfl⟩
  have hf1s := hf1
  rw [scriptStage] at hf1s
  have hsubf1 : List.Sublist (infosF f1) (infosF doc) := decomposeAll_ok_sublist _ _ _ hf1s
  have hsubfi : List.Sublist (infosF (iframeStage f1).1) (infosF f1) := iframeStage_fst_sublist f1
  have hsubf3 : List.Sublist (infosF f3) (infosF (iframeStage f1).1) := divStage_ok_sublist hf3
  have hsubf4 : List.Sublist (infosF f4) (infosF f3) := asideStage_ok_sublist hf4
  have hsub3doc : List.Sublist (infosF f3) (infosF doc) :=
    (hsubf3.trans hsubfi).trans hsubf1
  have hsub4doc : List.Sublist (infosF f4) (infosF doc) := hsubf4.trans hsub3doc
  have hnd3 : UidsNodup f3 := uidsNodup_of_sublist hsub3doc hnd
  have hndf4 : UidsNodup f4 := uidsNodup_of_sublist hsub4doc hnd
  simp only [asideStage] at hf4
  rw [moveStage] at hms
  split at hms
  · cases hms
  · next sidebarNow hsn =>
    rcases subtreeByUid_eq_some hsn with ⟨hmem4, hsnu⟩
    cases hsub3 : subtreeByUid sidebarN.nuid f3 with
    | none =>
      exfalso
      have hc3 : containsUid sidebarN.nuid f3 = true :=
        containsUid_of_sublist hsubf4 (containsUid_iff_subtree.mpr ⟨sidebarNow, hsn⟩)
      rcases containsUid_iff_subtree.mp hc3 with ⟨n, hn⟩
      rw [hsub3] at hn
      cases hn
    | some sidebarN3 =>
      rw [hsub3] at hf4
      rcases subtreeByUid_eq_some hsub3 with ⟨hsm3, hsu3⟩
      have hxE : isElemWithUid sidebarN.nuid sidebarNow = true := by
        rcases mem_elemsF_isElem f4 sidebarNow hmem4 with ⟨v, t, a, c, hE⟩
        rw [hE, Node.nuid] at hsnu
        rw [hE, isElemWithUid]
        rw [beq_iff_eq]
        exact hsnu
      split at hms
      · next hcont =>
        injection hms with hms
        subst hms
        have hpermE : List.Perm (infosF f4)
            (infosF (removeUidF sidebarN.nuid f4) ++ infos1 sidebarNow) :=
          infos_extractF_perm sidebarN.nuid f4 sidebarNow hndf4 hsn
        have hndg : UidsNodup (removeUidF sidebarN.nuid f4) :=
          uidsNodup_of_sublist (infos_removeUidF_sublist _ _) hndf4
        have hpermI := infos_insertAfterF_perm contentN.nuid sidebarNow
          (removeUidF sidebarN.nuid f4) hndg hcont
        have hperm := hpermI.trans hpermE.symm
        have hndout : UidsNodup (insertAfterF contentN.nuid sidebarNow
            (removeUidF sidebarN.nuid f4)) := uidsNodup_perm hperm.symm hndf4
        have houtf4 : ∀ j : Info,
            j ∈ infosF (insertAfterF contentN.nuid sidebarNow
              (removeUidF sidebarN.nuid f4)) ↔ j ∈ infosF f4 :=
          fun j => hperm.mem_iff
        have houtdoc : ∀ j ∈ infosF (insertAfterF contentN.nuid sidebarNow
            (removeUidF sidebarN.nuid f4)), j ∈ infosF doc :=
          fun j hj => hsub4doc.subset ((houtf4 j).mp hj)
        have hg_no_su : ∀ i ∈ infosF (removeUidF sidebarN.nuid f4), i.uid ≠ sidebarN.nuid :=
          removeUidF_not_contains sidebarN.nuid f4
        have hcancel : removeUidF sidebarN.nuid (insertAfterF contentN.nuid sidebarNow
            (removeUidF sidebarN.nuid f4)) = removeUidF sidebarN.nuid f4 :=
          removeUid_insertAfterF sidebarN.nuid contentN.nuid sidebarNow hxE _ hg_no_su
        have hsnowmem : sidebarNow ∈ elemsF (insertAfterF contentN.nuid sidebarNow
            (removeUidF sidebarN.nuid f4)) :=
          mem_insertAfterF contentN.nuid sidebarNow sidebarN.nuid hxE _ hcont
        have hsubout : subtreeByUid sidebarN.nuid (insertAfterF contentN.nuid sidebarNow
            (removeUidF sidebarN.nuid f4)) = some sidebarNow :=
          subtreeByUid_unique hndout hsnowmem hsnu
        rcases move_ok_iff.mp hok2 with ⟨cs2, hmc2⟩
        rcases moveCore_ok_inv hmc2 with
          ⟨cN2, sN2, f1b, f3b, f4b, unw2, dup2, hcf2, hsf2, htc2, hts2, hf1b, hf3b,
            hf4b, hmsb, hcsb⟩
        have hsN2info : sN2.info = sidebarN.info := by
          have h1 := findFirst_mem hsf2
          have h2 : sN2.info ∈ infosF doc := by
            refine houtdoc sN2.info ?_
            rw [infosF_eq_map]
            exact List.mem_map.mpr ⟨sN2, h1.1, rfl⟩
          exact hus sN2.info h2 sidebarN.info hsNinfo h1.2 hsNpred
        have hsN2 : sN2.nuid = sidebarN.nuid := by
          rw [← Node.info_uid, hsN2info, Node.info_uid]
        have hcN2info : cN2.info = contentN.info := by
          have h1 := findFirst_mem hcf2
          have h2 : cN2.info ∈ infosF doc := by
            refine houtdoc cN2.info ?_
            rw [infosF_eq_map]
            exact List.mem_map.mpr ⟨cN2, h1.1, rfl⟩
          exact huc cN2.info h2 contentN.info hcNinfo h1.2 hcNpred
        have hcN2 : cN2.nuid = contentN.nuid := by
          rw [← Node.info_uid, hcN2info, Node.info_uid]
        have habsent1 := scriptStage_ok_absent hf1
        have habsent3 := divStage_ok_absent hf3
        have hchainf3 : ∀ j ∈ infosF (insertAfterF contentN.nuid sidebarNow
            (removeUidF sidebarN.nuid f4)), j ∈ infosF f3 :=
          fun j hj => hsubf4.subset ((houtf4 j).mp hj)
        have hsm2 : scriptMatches (insertAfterF contentN.nuid sidebarNow
            (removeUidF sidebarN.nuid f4)) = [] := by
          refine scriptMatches_eq_nil ?_
          intro i hi2
          exact habsent1 i ((hsubf3.trans hsubfi).subset (hchainf3 i hi2))
        rw [scriptStage, hsm2] at hf1b
        rw [show (([] : List Node).map Node.nuid) = [] from rfl, decomposeAll] at hf1b
        injection hf1b with hf1b
        subst hf1b
        have hi2 : findAll isLikesIframe (insertAfterF contentN.nuid sidebarNow
            (removeUidF sidebarN.nuid f4)) = [] := by
          refine findAll_eq_nil.mpr ?_
          intro i hi2
          exact findAll_eq_nil.mp hi i (houtdoc i hi2)
        have hif2 : iframeStage (insertAfterF contentN.nuid sidebarNow
            (removeUidF sidebarN.nuid f4)) =
            (insertAfterF contentN.nuid sidebarNow (removeUidF sidebarN.nuid f4), 0) := by
          rw [iframeStage, findFirst, hi2]
          rfl
        rw [hif2] at hf3b
        rw [show ((insertAfterF contentN.nuid sidebarNow (removeUidF sidebarN.nuid f4),
          0).1 : Doc) = insertAfterF contentN.nuid sidebarNow (removeUidF sidebarN.nuid f4)
          from rfl] at hf3b
        have hd2 : divMatches (insertAfterF contentN.nuid sidebarNow
            (removeUidF sidebarN.nuid f4)) = [] := by
          rw [divMatches_eq]
          refine findAll_eq_nil.mpr ?_
          intro i hi2
          exact habsent3 i (hchainf3 i hi2)
        rw [divStage, hd2] at hf3b
        rw [show (([] : List Node).map Node.nuid) = [] from rfl, decomposeAll] at hf3b
        injection hf3b with hf3b
        subst hf3b
        simp only [asideStage, hsN2, hsubout] at hf4b
        have hsubl2 : List.Sublist (findAllIn sidebarNow isAsideWithId)
            (elemsF (insertAfterF contentN.nuid sidebarNow (removeUidF sidebarN.nuid f4))) := by
          rw [findAllIn, findAll]
          refine (List.filter_sublist _).trans ?_
          rcases mem_elemsF_isElem _ sidebarNow hsnowmem with ⟨v, t, a, c, hE⟩
          have h1 : List.Sublist (elems1 sidebarNow) (elemsF (insertAfterF contentN.nuid
              sidebarNow (removeUidF sidebarN.nuid f4))) :=
            elems1_sublist_of_memF _ sidebarNow hsnowmem
          rw [hE, elems1] at h1
          rw [hE, Node.childrenOf]
          exact (List.sublist_cons_self _ _).trans h1
        have hcorr : ∀ a2 ∈ findAllIn sidebarNow isAsideWithId,
            ∃ m ∈ specKeptNodes (findAllIn sidebarN3 isAsideWithId) [], m.info = a2.info := by
          intro a2 ha2
          have ha2mem : a2 ∈ elemsF sidebarNow.childrenOf := by
            rw [findAllIn] at ha2
            exact (mem_findAll.mp ha2).1
          have ha2pred : isAsideWithId a2.info = true := by
            rw [findAllIn] at ha2
            exact (mem_findAll.mp ha2).2
          have hj1 : a2.info ∈ infosF sidebarNow.childrenOf := by
            rw [infosF_eq_map]
            exact List.mem_map.mpr ⟨a2, ha2mem, rfl⟩
          have hj2 : a2.info ∈ subInfosF sidebarN.nuid f4 :=
            subInfosF_of_mem sidebarN.nuid f4 sidebarNow hmem4 hsnu a2.info hj1
          have hj3 : a2.info ∈ subInfosF sidebarN.nuid f3 :=
            (asideLoop_ok_subInfos_sublist sidebarN.nuid _ _ _ _ _ _ _ _ hf4).subset hj2
          have hj4 : a2.info ∈ infosF sidebarN3.childrenOf := by
            refine mem_subInfos_childrenOf hnd3 hsm3 ?_
            rw [hsu3]
            exact hj3
          rw [infosF_eq_map] at hj4
          rcases List.mem_map.mp hj4 with ⟨m, hm, hminfo⟩
          have hmas3 : m ∈ findAllIn sidebarN3 isAsideWithId := by
            rw [findAllIn]
            refine mem_findAll.mpr ⟨hm, ?_⟩
            rw [hminfo]
            exact ha2pred
          rcases specNodes_cover _ [] m hmas3 with hk | hr
          · exact ⟨m, hk, hminfo⟩
          · exfalso
            have hrm := asideLoop_ok_removed _ _ _ _ _ _ _ _ hf4 m hr
            have hpres : containsUid m.nuid f4 = true := by
              refine containsUid_iff.mpr ⟨a2.info, (subInfosF_sublist _ _).subset hj2, ?_⟩
              rw [← hminfo, Node.info_uid]
            rw [hrm] at hpres
            cases hpres
        have hkeysKept := specKeptNodes_keys (findAllIn sidebarN3 isAsideWithId) []
        have hpyKept : ∀ m ∈ specKeptNodes (findAllIn sidebarN3 isAsideWithId) [],
            pyIdKey (m.attr "id") = Except.ok (nodeKey m) := by
          intro m hm
          exact asideLoop_ok_pyIdKey _ _ _ _ _ _ _ _ hf4 m
            ((specKeptNodes_sublist _ _).subset hm)
        have helemout : ∀ a2 ∈ findAllIn sidebarNow isAsideWithId,
            a2 ∈ elemsF (insertAfterF contentN.nuid sidebarNow
              (removeUidF sidebarN.nuid f4)) :=
          fun a2 ha2 => hsubl2.subset ha2
        have hnodupout : (elemsF (insertAfterF contentN.nuid sidebarNow
            (removeUidF sidebarN.nuid f4))).Nodup := by
          have h1 : ((elemsF (insertAfterF contentN.nuid sidebarNow
              (removeUidF sidebarN.nuid f4))).map (fun n => n.info.uid)).Nodup := by
            have h2 := hndout
            rw [UidsNodup, infosF_eq_map, List.map_map] at h2
            exact h2
          exact List.Nodup.of_map _ h1
        have hnoop := asideLoop_noop (findAllIn sidebarNow isAsideWithId) [] 0 0
          (insertAfterF contentN.nuid sidebarNow (removeUidF sidebarN.nuid f4))
          (by
            intro a2 ha2
            refine containsUid_iff.mpr ⟨a2.info, ?_, Node.info_uid a2⟩
            rw [infosF_eq_map]
            exact List.mem_map.mpr ⟨a2, helemout a2 ha2, rfl⟩)
          (by
            intro a2 ha2
            rcases hcorr a2 ha2 with ⟨m, hmk, hminfo⟩
            have h1 : a2.attr "id" = m.attr "id" := by
              rw [Node.attr, Node.attr, hminfo]
            have h2 : nodeKey a2 = nodeKey m := by
              rw [nodeKey, nodeKey, hminfo]
            rw [h1, h2]
            exact hpyKept m hmk)
          (by
            intro a2 ha2
            rcases hcorr a2 ha2 with ⟨m, hmk, hminfo⟩
            have h2 : nodeKey a2 = nodeKey m := by
              rw [nodeKey, nodeKey, hminfo]
            rw [h2]
            exact (hkeysKept.2 m hmk).2)
          (by
            refine List.Nodup.map_on ?_ (hnodupout.sublist hsubl2)
            intro x hx y hy hxy
            rcases hcorr x hx with ⟨mx, hmxk, hmxinfo⟩
            rcases hcorr y hy with ⟨my, hmyk, hmyinfo⟩
            have hkx : nodeKey x = nodeKey mx := by rw [nodeKey, nodeKey, hmxinfo]
            have hky : nodeKey y = nodeKey my := by rw [nodeKey, nodeKey, hmyinfo]
            have hmm : mx = my := by
              refine List.inj_on_of_nodup_map hkeysKept.1 hmxk hmyk ?_
              rw [← hkx, ← hky, hxy]
            have hinfoeq : x.info = y.info := by
              rw [← hmxinfo, hmm, hmyinfo]
            exact uid_inj_of_nodup hndout x (helemout x hx) y (helemout y hy)
              (by rw [← Node.info_uid, hinfoeq, Node.info_uid])
          )
          (by
            intro a2 ha2 hmem2
            exact absurd hmem2 (List.not_mem_nil _))
        rw [hnoop] at hf4b
        injection hf4b with hf4b
        injection hf4b with hf4b1 hf4b2
        subst hf4b1
        rw [moveStage, hcN2, hsN2] at hmsb
        simp only [hsubout] at hmsb
        rw [hcancel, if_pos hcont] at hmsb
        injection hmsb with hmsb
        exact hmsb.symm
      · next hncont =>
        exfalso
        split at hms
        · next hcont2 =>
          injection hms with hms
          subst hms
          have hnosb : findAll (hasId "sidebar") (removeUidF sidebarN.nuid f4) = [] := by
            refine findAll_eq_nil.mpr ?_
            intro i hi2
            cases hp : hasId "sidebar" i with
            | false => rfl
            | true =>
              exfalso
              have hidoc : i ∈ infosF doc :=
                hsub4doc.subset ((infos_removeUidF_sublist _ _).subset hi2)
              have heq : i = sidebarN.info := hus i hidoc sidebarN.info hsNinfo hp hsNpred
              have hne2 := removeUidF_not_contains sidebarN.nuid f4 i hi2
              rw [heq, Node.info_uid] at hne2
              exact hne2 rfl
          rcases move_ok_iff.mp hok2 with ⟨cs2, hmc2⟩
          rcases moveCore_ok_inv hmc2 with
            ⟨cN2, sN2, f1b, f3b, f4b, unw2, dup2, hcf2, hsf2, htc2, hts2, hf1b, hf3b,
              hf4b, hmsb, hcsb⟩
          rw [findFirst, hnosb] at hsf2
          cases hsf2
        · cases hms

/-- The document of the C4 witness: unique content and sidebar ids and
nothing to clean up. -/
def docC4w : Doc :=
  [Node.elem 1 "div" [("id", AttrVal.vstr "sidebar")] [Node.text "s"],
   Node.elem 2 "div" [("id", AttrVal.vstr "content")] [Node.text "c"]]

/-- The output of the transformation on `docC4w`, a fixed point of the
transformation. -/
def docC4wOut : Doc :=
  [Node.elem 2 "div" [("id", AttrVal.vstr "content")] [Node.text "c"],
   Node.elem 1 "div" [("id", AttrVal.vstr "sidebar")] [Node.text "s"]]

theorem c4_witness :
    move_sidebar_after_content docC4w = Except.ok docC4wOut ∧ docC4wOut = docC4wOut :=
  ⟨by decide,
   c4_idempotent docC4w docC4wOut docC4wOut ⟨0, 0, 0, 0, 0⟩
     (by decide) (by decide) (by decide) (by decide) (by decide) (by decide)⟩

end MoveSidebar
